import Mathlib

/-!
Protocol builder of the benchmark driver (`pkg/infra/proposal.go`) and the
generation loop of `main.go`.

A shallow embedding of `CreateProposal`, `SignProposal`, `CreateSignedTx`,
`CreateSignedDeliverNewestEnv`, their helpers and the loop of `main` that
fills the raw-work queue.

* Go strings are lists of characters (`Str`); `[]byte(s)` is the UTF-8
  encoding of the characters.
* Go `int` is 64 bit; it is embedded as `Int`, and the places where the range
  matters (`strconv.Atoi`) check it explicitly.
* A Go function returning `(value, error)` returns a `Result`: a value, an
  error, or a run-time panic (nil dereference, index out of range, `Intn` on a
  non-positive bound).
* The process-wide generator `seededRand` is an explicit `World`: a stream of
  raw draws and a read position.  `Intn n` reduces the next draw modulo `n`, so
  every value of `[0, n)` is a possible outcome.
* The allocation `make([]byte, n)` panics for a negative `n` and above the
  allocation limit of the process, a field of `World` capped by the bound of
  the Go runtime.
* Encoders, decoders and the signing identity come from packages outside this
  file of the repository; they are the fields of `Lib` and `Crypto`.  The
  callee and the receivers of the loop of `main` are parameters of the loop.
-/

namespace Stupid

/-! ## Basic data -/

abbrev Bytes := List UInt8

abbrev Str := List Char

/-- Conversion `[]byte(s)` of a Go string. -/
def toBytes (s : Str) : Bytes := s.flatMap String.utf8EncodeChar

/-- Errors returned by the functions of the package. -/
inductive Err where
  /-- Text `at least one proposal response is required`. -/
  | noResponses
  /-- Text `signer must be the same as the one referenced in the header`. -/
  | signerMismatch
  /-- Text `proposal response was not successful, error code %d, msg %s`. -/
  | notSuccessful (status : Int) (message : Str)
  /-- Text `ProposalResponsePayloads from Peers do not match`. -/
  | payloadsDoNotMatch
  /-- The error of `strconv.Atoi` on the given input. -/
  | atoi (input : Str)
  /-- An error reported by a collaborator outside this file. -/
  | external (msg : Str)
  /-- Result of `errors.Wrap(cause, msg)`. -/
  | wrap (cause : Err) (msg : Str)
  deriving DecidableEq, Repr

/-- Text of the errors created in this file with `errors.Errorf`. -/
def Err.message : Err → Str
  | .noResponses => "at least one proposal response is required".toList
  | .signerMismatch => "signer must be the same as the one referenced in the header".toList
  | .notSuccessful status message =>
      "proposal response was not successful, error code ".toList
        ++ (if status < 0 then '-' :: Nat.toDigits 10 status.natAbs else Nat.toDigits 10 status.toNat)
        ++ ", msg ".toList ++ message
  | .payloadsDoNotMatch => "ProposalResponsePayloads from Peers do not match".toList
  | .atoi input => "strconv.Atoi: parsing ".toList ++ input
  | .external msg => msg
  | .wrap cause msg => msg ++ ": ".toList ++ cause.message

/-- Outcome of a call: a value, a returned error, or a run-time panic. -/
inductive Result (α : Type) where
  | ok (a : α)
  | err (e : Err)
  | panic (msg : Str)
  deriving DecidableEq, Repr

def nilDereference : Str := "invalid memory address or nil pointer dereference".toList

def indexOutOfRange : Str := "index out of range".toList

/-! ## The random generator -/

/-- State of the process around the package: the raw draws of `seededRand` with
the number of draws consumed, the identifiers handed out by `uuid.NewRandom`,
and the largest number of bytes that the process can obtain for one slice. -/
structure World where
  draws : Nat → Nat
  pos : Nat
  uuids : Nat → Str
  upos : Nat
  allocLimit : Nat

/-- Bound of the Go runtime on the size of one allocation (`maxAlloc`, at most
`1 << 48` on a 64-bit platform): `make` panics above it. -/
def maxAlloc : Nat := 2 ^ 48

/-- Largest length for which `make([]byte, length)` returns a slice. -/
def allocationLimit (w : World) : Nat := min w.allocLimit maxAlloc

/-- Method `seededRand.Intn(n)`: panics when `n <= 0`, otherwise a value of `[0, n)`. -/
def Intn (n : Int) (w : World) : Result Int × World :=
  if n ≤ 0 then (.panic "invalid argument to Intn".toList, w)
  else (.ok ((w.draws w.pos : Int) % n), { w with pos := w.pos + 1 })

def newUUID (w : World) : Str × World :=
  (w.uuids w.upos, { w with upos := w.upos + 1 })

/-- Sequencing of two steps that use the generator: the second step runs on
the value and the state left by the first one, when the first one returned a
value; an error or a panic of the first step is the outcome. -/
def andThen {α β : Type} (x : Result α × World) (f : α → World → Result β × World) :
    Result β × World :=
  match x with
  | (.ok a, w) => f a w
  | (.err e, w) => (.err e, w)
  | (.panic m, w) => (.panic m, w)

/-- Sequencing of two steps without state. -/
def Result.bind {α β : Type} (x : Result α) (f : α → Result β) : Result β :=
  match x with
  | .ok a => f a
  | .err e => .err e
  | .panic m => .panic m

/-! ## Library functions on strings -/

/-- Predicate `strings.HasPrefix(s, p)`, as the rest after the prefix. -/
def stripPrefix : (p s : Str) → Option Str
  | [], s => some s
  | _ :: _, [] => none
  | c :: p, d :: s => if c = d then stripPrefix p s else none

/-- Function `strings.TrimPrefix(s, p)`. -/
def TrimPrefix (s p : Str) : Str :=
  match stripPrefix p s with
  | some rest => rest
  | none => s

/-- Function `strings.Split(s, sep)` for a separator of one character. -/
def Split (s : Str) (sep : Char) : List Str :=
  match s with
  | [] => [[]]
  | c :: cs =>
    if c = sep then [] :: Split cs sep
    else
      match Split cs sep with
      | [] => [[c]]
      | x :: xs => (c :: x) :: xs

/-- Value of a run of decimal digits, most significant first. -/
def digitsValue (acc : Nat) : Str → Nat
  | [] => acc
  | c :: cs => digitsValue (acc * 10 + (c.toNat - '0'.toNat)) cs

def maxInt : Int := 2 ^ 63 - 1

def minInt : Int := -(2 ^ 63)

/-- Function `strconv.Atoi(s)` for a 64-bit `int`: an optional sign, then at
least one decimal digit and nothing else, the value within the range of `int`. -/
def Atoi (s : Str) : Result Int :=
  let body : Str := if s.head? = some '-' ∨ s.head? = some '+' then s.tail else s
  if body = [] ∨ ¬ body.all Char.isDigit then .err (.atoi s)
  else
    let v : Int := if s.head? = some '-' then -(digitsValue 0 body : Int) else digitsValue 0 body
    if v < minInt ∨ maxInt < v then .err (.atoi s) else .ok v

/-- Function `strconv.Itoa(v)`. -/
def Itoa (v : Int) : Str :=
  if v < 0 then '-' :: Nat.toDigits 10 v.natAbs else Nat.toDigits 10 v.toNat

/-- Whether some suffix of `s` satisfies `p`: a regular expression without
anchors matches a string when it matches at some position of it. -/
def matchAnywhere (p : Str → Bool) : Str → Bool
  | [] => p []
  | c :: cs => p (c :: cs) || matchAnywhere p cs

/-- Match of `randomString(\d*)` at the start of `s`: the literal, then any
run of digits (possibly empty). -/
def regStringAt (s : Str) : Bool :=
  (stripPrefix "randomString".toList s).isSome

/-- Match of `randomNumber(\d*)_(\d*)` at the start of `s`: the literal, a run
of digits, an underscore, a run of digits.  The underscore is not a digit, so
the first run is the longest one. -/
def regNumberAt (s : Str) : Bool :=
  match stripPrefix "randomNumber".toList s with
  | none => false
  | some rest =>
    match rest.dropWhile Char.isDigit with
    | '_' :: _ => true
    | _ => false

/-- Call `regString.MatchString(arg)` for `randomString(\d*)`. -/
def regStringMatch (arg : Str) : Bool := matchAnywhere regStringAt arg

/-- Call `regNumber.MatchString(arg)` for `randomNumber(\d*)_(\d*)`. -/
def regNumberMatch (arg : Str) : Bool := matchAnywhere regNumberAt arg

/-! ## Random values -/

def charset : Str :=
  "abcdefghijklmnopqrstuvwxyz".toList ++ "ABCDEFGHIJKLMNOPQRSTUVWXYZ0123456789".toList

def maxLen : Int := 16

def minLen : Int := 2

def randomInt (min max : Int) (w : World) : Result Int × World :=
  let min := if min < 0 then 0 else min
  let max := if max ≤ 0 then 1 else max
  andThen (Intn (max - min) w) fun v w => (.ok (v + min), w)

/-- Loop `for i := range b` of `stringWithCharset`, for the positions still to fill. -/
def fillCharset (charset : Str) : Nat → World → Result Str × World
  | 0, w => (.ok [], w)
  | k + 1, w =>
    andThen (Intn charset.length w) fun i w =>
      match charset.get? i.toNat with
      | none => (.panic indexOutOfRange, w)
      | some c => andThen (fillCharset charset k w) fun cs w => (.ok (c :: cs), w)

/-- Function `stringWithCharset`: `make([]byte, length)` panics for a negative
length and for a length above the allocation limit; the bytes of the slice are
then filled one by one.  The character set is ASCII, so its bytes are its
characters. -/
def stringWithCharset (length : Int) (charset : Str) (w : World) : Result Str × World :=
  if length < 0 ∨ (allocationLimit w : Int) < length then
    (.panic "makeslice: len out of range".toList, w)
  else fillCharset charset length.toNat w

def randomString (length : Int) (w : World) : Result Str × World :=
  if length ≤ 0 then
    andThen (Intn (maxLen - minLen + 1) w) fun v w => stringWithCharset (v + minLen) charset w
  else stringWithCharset length charset w

/-! ## Messages -/

structure ChaincodeID where
  Name : Str
  Version : Str
  deriving DecidableEq, Repr

structure ChaincodeInput where
  Args : List Bytes
  deriving DecidableEq, Repr

inductive ChaincodeSpecType where
  | UNDEFINED | GOLANG | NODE | CAR | JAVA
  deriving DecidableEq, Repr

structure ChaincodeSpec where
  Typ : ChaincodeSpecType
  ChaincodeId : ChaincodeID
  Input : ChaincodeInput
  deriving DecidableEq, Repr

structure ChaincodeInvocationSpec where
  ChaincodeSpec : ChaincodeSpec
  deriving DecidableEq, Repr

inductive HeaderType where
  | MESSAGE | CONFIG | CONFIG_UPDATE | ENDORSER_TRANSACTION | ORDERER_TRANSACTION
  | DELIVER_SEEK_INFO | CHAINCODE_PACKAGE
  deriving DecidableEq, Repr

structure Proposal where
  Header : Bytes
  Payload : Bytes
  deriving DecidableEq, Repr

structure SignedProposal where
  ProposalBytes : Bytes
  Signature : Bytes
  deriving DecidableEq, Repr

structure Header where
  ChannelHeader : Bytes
  SignatureHeader : Bytes
  deriving DecidableEq, Repr

structure SignatureHeader where
  Creator : Bytes
  Nonce : Bytes
  deriving DecidableEq, Repr

structure ChannelHeader where
  Typ : HeaderType
  ChannelId : Str
  TxId : Str
  Extension : Bytes
  deriving DecidableEq, Repr

structure ChaincodeHeaderExtension where
  ChaincodeId : Option ChaincodeID
  deriving DecidableEq, Repr

structure ChaincodeProposalPayload where
  Input : Bytes
  TransientMap : List (Str × Bytes)
  deriving DecidableEq, Repr

structure Response where
  Status : Int
  Message : Str
  deriving DecidableEq, Repr

structure Endorsement where
  Endorser : Bytes
  Signature : Bytes
  deriving DecidableEq, Repr

/-- Message `peer.ProposalResponse`; `Response` and `Endorsement` are pointers
and may be nil. -/
structure ProposalResponse where
  Response : Option Response
  Payload : Bytes
  Endorsement : Option Endorsement
  deriving DecidableEq, Repr

structure ChaincodeEndorsedAction where
  ProposalResponsePayload : Bytes
  Endorsements : List (Option Endorsement)
  deriving DecidableEq, Repr

structure ChaincodeActionPayload where
  ChaincodeProposalPayload : Bytes
  Action : ChaincodeEndorsedAction
  deriving DecidableEq, Repr

structure TransactionAction where
  Header : Bytes
  Payload : Bytes
  deriving DecidableEq, Repr

structure Transaction where
  Actions : List TransactionAction
  deriving DecidableEq, Repr

structure Payload where
  Header : Header
  Data : Bytes
  deriving DecidableEq, Repr

structure Envelope where
  Payload : Bytes
  Signature : Bytes
  deriving DecidableEq, Repr

inductive SeekPosition where
  | Newest
  | Oldest
  | Specified (Number : Nat)
  deriving DecidableEq, Repr

inductive SeekBehavior where
  | BLOCK_UNTIL_READY | FAIL_IF_NOT_READY
  deriving DecidableEq, Repr

structure SeekInfo where
  Start : SeekPosition
  Stop : SeekPosition
  Behavior : SeekBehavior
  deriving DecidableEq, Repr

/-- The work unit `infra.Elements`, with the field that `main` sets; the
proposal is a pointer and may be nil. -/
structure Elements where
  Proposal : Option Proposal
  deriving DecidableEq, Repr

/-- The fields of `infra.Config` read by the generation loop of `main`. -/
structure Config where
  Channel : Str
  Chaincode : Str
  Version : Str
  Args : List Str
  deriving DecidableEq, Repr

/-! ## Collaborators -/

/-- The signing identity `*Crypto`. -/
structure Crypto where
  Serialize : Result Bytes
  Sign : Bytes → Result Bytes

/-- The functions of `proto` and `protoutil` that the package calls. -/
structure Lib where
  /-- Call `proto.Unmarshal(bytes, &common.Header{})` -/
  unmarshalHeader : Bytes → Result Header
  /-- Call `proto.Unmarshal(bytes, &peer.ChaincodeProposalPayload{})` -/
  unmarshalChaincodeProposalPayload : Bytes → Result ChaincodeProposalPayload
  /-- Call `proto.Unmarshal(bytes, &common.SignatureHeader{})` -/
  unmarshalSignatureHeader : Bytes → Result SignatureHeader
  /-- Call `proto.Unmarshal(bytes, &common.ChannelHeader{})` -/
  unmarshalChannelHeader : Bytes → Result ChannelHeader
  /-- Call `proto.Unmarshal(bytes, &peer.ChaincodeHeaderExtension{})` -/
  unmarshalChaincodeHeaderExtension : Bytes → Result ChaincodeHeaderExtension
  /-- Call `proto.Marshal(prop)`; the pointer `prop` may be nil -/
  marshalProposal : Option Proposal → Result Bytes
  /-- Function `protoutil.CreateChaincodeProposal`, without the transaction id it also returns -/
  CreateChaincodeProposal :
    HeaderType → Str → ChaincodeInvocationSpec → Bytes → Result Proposal
  GetBytesProposalPayloadForTx : ChaincodeProposalPayload → Result Bytes
  GetBytesChaincodeActionPayload : ChaincodeActionPayload → Result Bytes
  GetBytesTransaction : Transaction → Result Bytes
  GetBytesPayload : Payload → Result Bytes
  /-- Function `protoutil.CreateSignedEnvelope(txType, channelID, signer, dataMsg,
  msgVersion, epoch)` for a seek request as data message -/
  CreateSignedEnvelope : HeaderType → Str → Crypto → SeekInfo → Int → Nat → Result Envelope

/-- Call `errors.Wrap(err, msg)` on the error of a result; a nil error stays nil. -/
def wrapErr {α : Type} (r : Result α) (msg : Str) : Result α :=
  match r with
  | .err e => .err (.wrap e msg)
  | .ok a => .ok a
  | .panic m => .panic m

/-! ## CreateProposal -/

/-- Body of the loop `for _, arg := range args` of `CreateProposal`: the value
of `current_arg` that is appended, or the error returned. -/
def expandArg (arg : Str) (w : World) : Result Bytes × World :=
  let current_arg : Bytes := toBytes arg
  let afterUUID : Bytes × World :=
    if arg = "uuid".toList then
      let (u, w) := newUUID w
      (toBytes u, w)
    else (current_arg, w)
  let afterString : Result Bytes × World :=
    if regStringMatch arg then
      match Atoi (TrimPrefix arg "randomString".toList) with
      | .ok length =>
        andThen (randomString length afterUUID.2) fun s w => (.ok (toBytes s), w)
      | .err e => (.err e, afterUUID.2)
      | .panic m => (.panic m, afterUUID.2)
    else (.ok afterUUID.1, afterUUID.2)
  andThen afterString fun current_arg w =>
    if regNumberMatch arg then
      let min_maxStr := TrimPrefix arg "randomNumber".toList
      let min_maxArray := Split min_maxStr '_'
      match min_maxArray.get? 0 with
      | none => (.panic indexOutOfRange, w)
      | some a0 =>
        match Atoi a0 with
        | .err e => (.err e, w)
        | .panic m => (.panic m, w)
        | .ok min =>
          match min_maxArray.get? 1 with
          | none => (.panic indexOutOfRange, w)
          | some a1 =>
            match Atoi a1 with
            | .err e => (.err e, w)
            | .panic m => (.panic m, w)
            | .ok max =>
              andThen (randomInt min max w) fun v w => (.ok (toBytes (Itoa v)), w)
    else (.ok current_arg, w)

/-- The loop of `CreateProposal` over the arguments still to expand, with the
slice `argsInByte` built so far. -/
def expandArgs (argsInByte : List Bytes) : List Str → World → Result (List Bytes) × World
  | [], w => (.ok argsInByte, w)
  | arg :: rest, w =>
    andThen (expandArg arg w) fun current_arg w =>
      expandArgs (argsInByte ++ [current_arg]) rest w

/-- The part of `CreateProposal` after the loop, for the final `argsInByte`. -/
def encodeProposal (lib : Lib) (signer : Crypto) (channel ccname version : Str)
    (argsInByte : List Bytes) (w : World) : Result Proposal × World :=
  let spec : ChaincodeSpec :=
    { Typ := .GOLANG
      ChaincodeId := { Name := ccname, Version := version }
      Input := { Args := argsInByte } }
  let invocation : ChaincodeInvocationSpec := { ChaincodeSpec := spec }
  match signer.Serialize with
  | .err e => (.err e, w)
  | .panic m => (.panic m, w)
  | .ok creator =>
    (lib.CreateChaincodeProposal .ENDORSER_TRANSACTION channel invocation creator, w)

def CreateProposal (lib : Lib) (signer : Crypto) (channel ccname version : Str)
    (args : List Str) (w : World) : Result Proposal × World :=
  andThen (expandArgs [] args w) fun argsInByte w =>
    encodeProposal lib signer channel ccname version argsInByte w

/-! ## SignProposal -/

def SignProposal (lib : Lib) (prop : Option Proposal) (signer : Crypto) :
    Result SignedProposal :=
  (lib.marshalProposal prop).bind fun propBytes =>
  (signer.Sign propBytes).bind fun sig =>
  .ok { ProposalBytes := propBytes, Signature := sig }

/-! ## CreateSignedTx -/

def GetHeader (lib : Lib) (bytes : Bytes) : Result Header :=
  wrapErr (lib.unmarshalHeader bytes) "error unmarshaling Header".toList

def GetChaincodeProposalPayload (lib : Lib) (bytes : Bytes) : Result ChaincodeProposalPayload :=
  wrapErr (lib.unmarshalChaincodeProposalPayload bytes)
    "error unmarshaling ChaincodeProposalPayload".toList

def UnmarshalSignatureHeader (lib : Lib) (bytes : Bytes) : Result SignatureHeader :=
  wrapErr (lib.unmarshalSignatureHeader bytes) "error unmarshaling SignatureHeader".toList

def GetSignatureHeader (lib : Lib) (bytes : Bytes) : Result SignatureHeader :=
  UnmarshalSignatureHeader lib bytes

def UnmarshalChannelHeader (lib : Lib) (bytes : Bytes) : Result ChannelHeader :=
  wrapErr (lib.unmarshalChannelHeader bytes) "error unmarshaling ChannelHeader".toList

def GetChaincodeHeaderExtension (lib : Lib) (hdr : Header) : Result ChaincodeHeaderExtension :=
  (UnmarshalChannelHeader lib hdr.ChannelHeader).bind fun chdr =>
    wrapErr (lib.unmarshalChaincodeHeaderExtension chdr.Extension)
      "error unmarshaling ChaincodeHeaderExtension".toList

/-- The loop `for n, r := range resps` of `CreateSignedTx`, from index `n` on,
with the current `a1` and `endorsements`; it returns their final values. -/
def endorsementLoop (n : Nat) (a1 : Bytes) (endorsements : List (Option Endorsement)) :
    List (Option ProposalResponse) → Result (Bytes × List (Option Endorsement))
  | [] => .ok (a1, endorsements)
  | none :: _ => .panic nilDereference
  | some r :: rest =>
    let first : Result Bytes :=
      if n = 0 then
        match r.Response with
        | none => .panic nilDereference
        | some resp =>
          if resp.Status < 200 ∨ resp.Status ≥ 400 then
            .err (.notSuccessful resp.Status resp.Message)
          else .ok r.Payload
      else .ok a1
    first.bind fun a1 =>
      if a1 ≠ r.Payload then .err .payloadsDoNotMatch
      else endorsementLoop (n + 1) a1 (endorsements ++ [r.Endorsement]) rest

def CreateSignedTx (lib : Lib) (proposal : Option Proposal) (signer : Crypto)
    (resps : List (Option ProposalResponse)) : Result Envelope :=
  if resps.length = 0 then .err .noResponses
  else
    match proposal with
    | none => .panic nilDereference
    | some proposal =>
      (GetHeader lib proposal.Header).bind fun hdr =>
      (GetChaincodeProposalPayload lib proposal.Payload).bind fun pPayl =>
      signer.Serialize.bind fun signerBytes =>
      (GetSignatureHeader lib hdr.SignatureHeader).bind fun shdr =>
      if signerBytes ≠ shdr.Creator then .err .signerMismatch
      else
        (GetChaincodeHeaderExtension lib hdr).bind fun _ =>
        (endorsementLoop 0 [] [] resps).bind fun (a1, endorsements) =>
        let cea : ChaincodeEndorsedAction :=
          { ProposalResponsePayload := a1, Endorsements := endorsements }
        (lib.GetBytesProposalPayloadForTx pPayl).bind fun propPayloadBytes =>
        let cap : ChaincodeActionPayload :=
          { ChaincodeProposalPayload := propPayloadBytes, Action := cea }
        (lib.GetBytesChaincodeActionPayload cap).bind fun capBytes =>
        let taa : TransactionAction := { Header := hdr.SignatureHeader, Payload := capBytes }
        let tx : Transaction := { Actions := [taa] }
        (lib.GetBytesTransaction tx).bind fun txBytes =>
        let payl : Payload := { Header := hdr, Data := txBytes }
        (lib.GetBytesPayload payl).bind fun paylBytes =>
        (signer.Sign paylBytes).bind fun sig =>
        .ok { Payload := paylBytes, Signature := sig }

/-! ## CreateSignedDeliverNewestEnv -/

/-- Constant `math.MaxUint64`, that is `1<<64 - 1`. -/
def MaxUint64 : Nat := 18446744073709551615

def CreateSignedDeliverNewestEnv (lib : Lib) (ch : Str) (signer : Crypto) : Result Envelope :=
  let start : SeekPosition := .Newest
  let stop : SeekPosition := .Specified MaxUint64
  let seekInfo : SeekInfo := { Start := start, Stop := stop, Behavior := .BLOCK_UNTIL_READY }
  lib.CreateSignedEnvelope .DELIVER_SEEK_INFO ch signer seekInfo 0 0

/-! ## The generation loop of `main`

The loop calls `infra.CreateProposal` of the package
`github.com/guoger/stupid/infra`, a function with one result, and sends on the
channel `raw`, from which the goroutines started by `main` receive.  That
function and those goroutines are outside this development; they are the
parameters `create` and `received`. -/

/-- Capacity of the channel `raw`, from `make(chan *infra.Elements, 100)`. -/
def rawCapacity : Nat := 100

/-- How the generation loop ends: it runs to its end, having sent the units
`sent` in that order; or a call of `infra.CreateProposal` panics; or a send
on the full channel blocks for ever. -/
inductive LoopOutcome (σ : Type) where
  | done (sent : List Elements) (s : σ)
  | panicked (sent : List Elements)
  | blocked (sent : List Elements)

/-- The loop `for i := 0; i < N; i++` of `main` for the iterations still to
run, in the state `s` of the process and with the units `sent` so far on `raw`.

* The parameter `create crypto channel chaincode version args s` is the call
  of `infra.CreateProposal` in the state `s`: the pointer it returns (nil or a
  proposal) with the state it leaves, or `none` when it panics.
* The parameter `received k` is the number of units that the receiving
  goroutines take from `raw` once `k` units have been sent.  The send
  `raw <- unit` after `k` sends returns when the buffer of `rawCapacity` units
  has room, that is when `k - received k < rawCapacity`; otherwise it blocks. -/
def generationLoop {σ : Type}
    (create : Crypto → Str → Str → Str → List Str → σ → Option (Option Proposal × σ))
    (received : Nat → Nat) (crypto : Crypto) (config : Config) :
    Nat → σ → List Elements → LoopOutcome σ
  | 0, s, sent => .done sent s
  | k + 1, s, sent =>
    match create crypto config.Channel config.Chaincode config.Version config.Args s with
    | none => .panicked sent
    | some (prop, s) =>
      if sent.length < received sent.length + rawCapacity then
        generationLoop create received crypto config k s (sent ++ [{ Proposal := prop }])
      else .blocked sent

/-- The generation loop of `main` for the requested count `N`, nothing being
sent before it. -/
def mainGeneration {σ : Type}
    (create : Crypto → Str → Str → Str → List Str → σ → Option (Option Proposal × σ))
    (received : Nat → Nat) (crypto : Crypto) (config : Config) (N : Int) (s : σ) :
    LoopOutcome σ :=
  generationLoop create received crypto config N.toNat s []

/-! ## Predicates used in the statements -/

/-- The arguments `args` are expanded one after the other, from the state `w`
of the generator to the state `w'`, to the byte strings `bs`: each byte string
is the expansion of the argument at its position, in the state left by the
arguments before it. -/
def expandsTo : List Str → World → List Bytes → World → Prop
  | [], w, [], w' => w' = w
  | arg :: args, w, b :: bs, w' =>
    ∃ w1 : World, expandArg arg w = (.ok b, w1) ∧ expandsTo args w1 bs w'
  | _, _, _, _ => False

/-- State of the process before iteration `i` of the generation loop of `main`
started in the state `s`: the state left by the `i` calls of
`infra.CreateProposal` before it (the state is kept when a call panics). -/
def stateBefore {σ : Type}
    (create : Crypto → Str → Str → Str → List Str → σ → Option (Option Proposal × σ))
    (crypto : Crypto) (config : Config) : Nat → σ → σ
  | 0, s => s
  | i + 1, s =>
    match create crypto config.Channel config.Chaincode config.Version config.Args s with
    | none => s
    | some (_, s1) => stateBefore create crypto config i s1

/-- The collaborators return a value or an error, they do not panic. -/
def collaboratorsReturn (lib : Lib) (signer : Crypto) : Prop :=
  (∀ b m, lib.unmarshalHeader b ≠ .panic m)
  ∧ (∀ b m, lib.unmarshalChaincodeProposalPayload b ≠ .panic m)
  ∧ (∀ b m, lib.unmarshalSignatureHeader b ≠ .panic m)
  ∧ (∀ b m, lib.unmarshalChannelHeader b ≠ .panic m)
  ∧ (∀ b m, lib.unmarshalChaincodeHeaderExtension b ≠ .panic m)
  ∧ (∀ p m, lib.GetBytesProposalPayloadForTx p ≠ .panic m)
  ∧ (∀ p m, lib.GetBytesChaincodeActionPayload p ≠ .panic m)
  ∧ (∀ t m, lib.GetBytesTransaction t ≠ .panic m)
  ∧ (∀ p m, lib.GetBytesPayload p ≠ .panic m)
  ∧ (∀ m, signer.Serialize ≠ .panic m)
  ∧ (∀ b m, signer.Sign b ≠ .panic m)

/-! ## A concrete instance of the collaborators

A small length-prefixed encoding and a fixed identity, on which the functions
above can be evaluated. -/

/-- One length byte, then the content. -/
def frame (b : Bytes) : Bytes := UInt8.ofNat b.length :: b

/-- Inverse of `frame` on the front of `b`: the content and what follows it.
The empty input is the empty message. -/
def unframe : Bytes → Result (Bytes × Bytes)
  | [] => .ok ([], [])
  | n :: rest =>
    if rest.length < n.toNat then .err (.external "unexpected EOF".toList)
    else .ok (rest.take n.toNat, rest.drop n.toNat)

def demoLib : Lib where
  unmarshalHeader b :=
    (unframe b).bind fun (a, r) => .ok { ChannelHeader := a, SignatureHeader := r }
  unmarshalChaincodeProposalPayload b := .ok { Input := b, TransientMap := [] }
  unmarshalSignatureHeader b :=
    (unframe b).bind fun (a, r) => .ok { Creator := a, Nonce := r }
  unmarshalChannelHeader b :=
    .ok { Typ := .ENDORSER_TRANSACTION, ChannelId := [], TxId := [], Extension := b }
  unmarshalChaincodeHeaderExtension _ := .ok { ChaincodeId := none }
  marshalProposal p :=
    match p with
    | none => .err (.external "proto: Marshal called with nil".toList)
    | some p => .ok (frame p.Header ++ p.Payload)
  CreateChaincodeProposal _ channel invocation creator :=
    .ok { Header := frame (toBytes channel) ++ frame creator
          Payload := frame (toBytes invocation.ChaincodeSpec.ChaincodeId.Name)
            ++ invocation.ChaincodeSpec.Input.Args.flatMap frame }
  GetBytesProposalPayloadForTx p := .ok p.Input
  GetBytesChaincodeActionPayload cap :=
    .ok (frame cap.ChaincodeProposalPayload ++ frame cap.Action.ProposalResponsePayload
      ++ cap.Action.Endorsements.flatMap fun e =>
        match e with
        | none => [0]
        | some e => frame e.Endorser ++ frame e.Signature)
  GetBytesTransaction tx := .ok (tx.Actions.flatMap fun a => frame a.Header ++ frame a.Payload)
  GetBytesPayload p :=
    .ok (frame (frame p.Header.ChannelHeader ++ p.Header.SignatureHeader) ++ p.Data)
  CreateSignedEnvelope typ channel signer seekInfo _ _ :=
    signer.Serialize.bind fun creator =>
      let typeByte : UInt8 := match typ with
        | .MESSAGE => 0 | .CONFIG => 1 | .CONFIG_UPDATE => 2 | .ENDORSER_TRANSACTION => 3
        | .ORDERER_TRANSACTION => 4 | .DELIVER_SEEK_INFO => 5 | .CHAINCODE_PACKAGE => 6
      let position : SeekPosition → Bytes := fun p =>
        match p with
        | .Newest => [0]
        | .Oldest => [1]
        | .Specified n => [2, UInt8.ofNat (n % 256)]
      let behavior : UInt8 := match seekInfo.Behavior with
        | .BLOCK_UNTIL_READY => 0 | .FAIL_IF_NOT_READY => 1
      let payload : Bytes :=
        frame (frame (typeByte :: toBytes channel) ++ frame creator)
          ++ position seekInfo.Start ++ position seekInfo.Stop ++ [behavior]
      (signer.Sign payload).bind fun sig => .ok { Payload := payload, Signature := sig }

def demoSigner : Crypto where
  Serialize := .ok [1, 2, 3]
  Sign msg := .ok [UInt8.ofNat msg.length, 7]

/-- A process whose raw draws are all `d` and whose slices may be as large as
the runtime allows. -/
def constWorld (d : Nat) : World :=
  { draws := fun _ => d, pos := 0, uuids := fun _ => "00000000-0000-4000-8000-000000000000".toList,
    upos := 0, allocLimit := 2 ^ 48 }

/-- A callee for the generation loop whose state counts the calls: the build
fails (nil proposal) at the even calls and returns a proposal at the odd ones. -/
def demoCreate : Crypto → Str → Str → Str → List Str → Nat → Option (Option Proposal × Nat) :=
  fun _ channel _ _ _ n =>
    some (if n % 2 = 0 then none else some { Header := toBytes channel, Payload := [] }, n + 1)

/-- A proposal for channel `ch` created by `demoSigner`. -/
def demoProposal : Proposal :=
  { Header := frame (toBytes "ch".toList) ++ frame [1, 2, 3], Payload := [9] }

/-- An endorsement response with the given status and payload. -/
def demoResponse (status : Int) (payload : Bytes) (endorser : UInt8) : ProposalResponse :=
  { Response := some { Status := status, Message := [] }
    Payload := payload
    Endorsement := some { Endorser := [endorser], Signature := [endorser, endorser] } }

/-! ## Sequencing lemmas -/

@[simp] theorem Result.bind_ok {α β : Type} (a : α) (f : α → Result β) :
    (Result.ok a).bind f = f a := rfl

@[simp] theorem Result.bind_err {α β : Type} (e : Err) (f : α → Result β) :
    (Result.err e : Result α).bind f = .err e := rfl

@[simp] theorem Result.bind_panic {α β : Type} (m : Str) (f : α → Result β) :
    (Result.panic m : Result α).bind f = .panic m := rfl

@[simp] theorem andThen_ok {α β : Type} (a : α) (w : World)
    (f : α → World → Result β × World) : andThen (.ok a, w) f = f a w := rfl

@[simp] theorem andThen_err {α β : Type} (e : Err) (w : World)
    (f : α → World → Result β × World) : andThen (.err e, w) f = (.err e, w) := rfl

@[simp] theorem andThen_panic {α β : Type} (m : Str) (w : World)
    (f : α → World → Result β × World) : andThen (.panic m, w) f = (.panic m, w) := rfl

@[simp] theorem wrapErr_ok {α : Type} (a : α) (msg : Str) :
    wrapErr (Result.ok a) msg = .ok a := rfl

/-! ## The endorsement loop -/

/-- After the first response the loop accepts exactly the lists of present
responses whose payloads all equal `a1`, and collects their endorsements in order. -/
theorem endorsementLoop_succ_ok (n : Nat) (a1 : Bytes) (prs : List ProposalResponse) :
    ∀ es : List (Option Endorsement), (∀ pr ∈ prs, pr.Payload = a1) →
      endorsementLoop (n + 1) a1 es (prs.map some)
        = .ok (a1, es ++ prs.map (fun pr => pr.Endorsement)) := by
  induction prs generalizing n with
  | nil => intro es _; simp [endorsementLoop]
  | cons pr rest ih =>
    intro es h
    have h1 : pr.Payload = a1 := h pr (List.mem_cons_self _ _)
    have h2 : ∀ q ∈ rest, q.Payload = a1 := fun q hq => h q (List.mem_cons_of_mem _ hq)
    simp [endorsementLoop, h1, ih (n + 1) (es ++ [pr.Endorsement]) h2]

/-- After the first response, a present response whose payload differs from
`a1` makes the loop fail with the disagreement error, when all responses are present. -/
theorem endorsementLoop_succ_mismatch (n : Nat) (a1 : Bytes) (prs : List ProposalResponse) :
    ∀ es : List (Option Endorsement), (∃ pr ∈ prs, pr.Payload ≠ a1) →
      endorsementLoop (n + 1) a1 es (prs.map some) = .err .payloadsDoNotMatch := by
  induction prs generalizing n with
  | nil => intro es h; simp at h
  | cons pr rest ih =>
    intro es h
    by_cases h1 : pr.Payload = a1
    · have h2 : ∃ q ∈ rest, q.Payload ≠ a1 := by
        obtain ⟨q, hq, hne⟩ := h
        rcases List.mem_cons.mp hq with rfl | hq
        · exact absurd h1 hne
        · exact ⟨q, hq, hne⟩
      simp [endorsementLoop, h1, ih (n + 1) (es ++ [pr.Endorsement]) h2]
    · have h3 : a1 ≠ pr.Payload := fun h => h1 h.symm
      simp [endorsementLoop, h3]

/-- A run of the loop after the first response that returns a value returns
`a1` as reference payload and has seen only present responses with payload `a1`. -/
theorem endorsementLoop_succ_inv (n : Nat) (a1 : Bytes) (resps : List (Option ProposalResponse)) :
    ∀ (es : List (Option Endorsement)) (x : Bytes × List (Option Endorsement)),
      endorsementLoop (n + 1) a1 es resps = .ok x →
      x.1 = a1 ∧ ∀ r ∈ resps, ∃ pr, r = some pr ∧ pr.Payload = a1 := by
  induction resps generalizing n with
  | nil =>
    intro es x h
    simp only [endorsementLoop, Result.ok.injEq] at h
    subst h
    simp
  | cons r0 rest ih =>
    intro es x h
    cases r0 with
    | none => simp [endorsementLoop] at h
    | some pr0 =>
      by_cases h1 : a1 = pr0.Payload
      · simp only [endorsementLoop, Nat.add_one_ne_zero, if_false, Result.bind_ok] at h
        rw [if_neg (by simpa using h1)] at h
        obtain ⟨hx, hall⟩ := ih (n + 1) _ x h
        refine ⟨hx, fun r hr => ?_⟩
        rcases List.mem_cons.mp hr with rfl | hr
        · exact ⟨pr0, rfl, h1.symm⟩
        · exact hall r hr
      · simp [endorsementLoop, h1] at h

/-- A run of the whole loop that returns a value has seen only present
responses whose payloads equal the returned reference payload. -/
theorem endorsementLoop_zero_inv (resps : List (Option ProposalResponse))
    (x : Bytes × List (Option Endorsement)) (h : endorsementLoop 0 [] [] resps = .ok x)
    (hne : resps ≠ []) : ∀ r ∈ resps, ∃ pr, r = some pr ∧ pr.Payload = x.1 := by
  cases resps with
  | nil => exact absurd rfl hne
  | cons r0 rest =>
    cases r0 with
    | none => simp [endorsementLoop] at h
    | some pr0 =>
      cases hR : pr0.Response with
      | none => simp [endorsementLoop, hR] at h
      | some resp =>
        by_cases hs : resp.Status < 200 ∨ resp.Status ≥ 400
        · simp [endorsementLoop, hR, hs] at h
        · simp only [endorsementLoop, hR, if_true, if_neg hs, Result.bind_ok, ne_eq,
            not_true_eq_false, if_false] at h
          obtain ⟨hx, hall⟩ := endorsementLoop_succ_inv 0 pr0.Payload rest _ x h
          intro r hr
          rcases List.mem_cons.mp hr with rfl | hr
          · exact ⟨pr0, rfl, hx.symm⟩
          · obtain ⟨pr, hpr, hp⟩ := hall r hr
            exact ⟨pr, hpr, hp.trans hx.symm⟩

/-- The first iteration of the loop on a present response with a present
`Response` whose status is in `[200, 400)`: the rest of the list is run with
that response's payload as reference. -/
theorem endorsementLoop_zero_cons (pr0 : ProposalResponse) (resp : Response)
    (rest : List (Option ProposalResponse)) (hR : pr0.Response = some resp)
    (hlo : 200 ≤ resp.Status) (hhi : resp.Status < 400) :
    endorsementLoop 0 [] [] (some pr0 :: rest)
      = endorsementLoop 1 pr0.Payload [pr0.Endorsement] rest := by
  have hs : ¬ (resp.Status < 200 ∨ resp.Status ≥ 400) := by omega
  simp [endorsementLoop, hR, hs]

/-! ## CreateSignedTx: structure of a call -/

/-- A call that returns an envelope was made on a non-empty list and its
endorsement loop returned a value. -/
theorem CreateSignedTx_ok_loop (lib : Lib) (proposal : Option Proposal) (signer : Crypto)
    (resps : List (Option ProposalResponse)) (env : Envelope)
    (h : CreateSignedTx lib proposal signer resps = .ok env) :
    resps ≠ [] ∧ ∃ x, endorsementLoop 0 [] [] resps = .ok x := by
  unfold CreateSignedTx at h
  by_cases h0 : resps.length = 0
  · simp [h0] at h
  · refine ⟨fun hn => h0 (by simp [hn]), ?_⟩
    rw [if_neg h0] at h
    cases proposal with
    | none => simp at h
    | some p =>
      simp only at h
      cases h1 : GetHeader lib p.Header with
      | err e => simp [h1] at h
      | panic m => simp [h1] at h
      | ok hdr =>
        cases h2 : GetChaincodeProposalPayload lib p.Payload with
        | err e => simp [h1, h2] at h
        | panic m => simp [h1, h2] at h
        | ok pPayl =>
          cases h3 : signer.Serialize with
          | err e => simp [h1, h2, h3] at h
          | panic m => simp [h1, h2, h3] at h
          | ok signerBytes =>
            cases h4 : GetSignatureHeader lib hdr.SignatureHeader with
            | err e => simp [h1, h2, h3, h4] at h
            | panic m => simp [h1, h2, h3, h4] at h
            | ok shdr =>
              by_cases h5 : signerBytes = shdr.Creator
              · cases h6 : GetChaincodeHeaderExtension lib hdr with
                | err e => simp [h1, h2, h3, h4, h5, h6] at h
                | panic m => simp [h1, h2, h3, h4, h5, h6] at h
                | ok ext =>
                  cases h7 : endorsementLoop 0 [] [] resps with
                  | err e => simp [h1, h2, h3, h4, h5, h6, h7] at h
                  | panic m => simp [h1, h2, h3, h4, h5, h6, h7] at h
                  | ok x => exact ⟨x, rfl⟩
              · simp [h1, h2, h3, h4, h5] at h

/-- On a non-empty list, a decodable proposal and a signer whose identity is
the creator of the header, the call is its endorsement loop followed by the
encoding and signing steps. -/
theorem CreateSignedTx_decoded (lib : Lib) (proposal : Proposal) (signer : Crypto)
    (resps : List (Option ProposalResponse))
    (hdr : Header) (pPayl : ChaincodeProposalPayload) (shdr : SignatureHeader)
    (chdr : ChannelHeader) (ext : ChaincodeHeaderExtension)
    (hne : resps ≠ [])
    (hH : lib.unmarshalHeader proposal.Header = .ok hdr)
    (hP : lib.unmarshalChaincodeProposalPayload proposal.Payload = .ok pPayl)
    (hS : lib.unmarshalSignatureHeader hdr.SignatureHeader = .ok shdr)
    (hC : lib.unmarshalChannelHeader hdr.ChannelHeader = .ok chdr)
    (hE : lib.unmarshalChaincodeHeaderExtension chdr.Extension = .ok ext)
    (hId : signer.Serialize = .ok shdr.Creator) :
    CreateSignedTx lib (some proposal) signer resps
      = (endorsementLoop 0 [] [] resps).bind fun x =>
          (lib.GetBytesProposalPayloadForTx pPayl).bind fun propPayloadBytes =>
          (lib.GetBytesChaincodeActionPayload
            { ChaincodeProposalPayload := propPayloadBytes
              Action := { ProposalResponsePayload := x.1, Endorsements := x.2 } }).bind
            fun capBytes =>
          (lib.GetBytesTransaction
            { Actions := [{ Header := hdr.SignatureHeader, Payload := capBytes }] }).bind
            fun txBytes =>
          (lib.GetBytesPayload { Header := hdr, Data := txBytes }).bind fun paylBytes =>
          (signer.Sign paylBytes).bind fun sig =>
          .ok { Payload := paylBytes, Signature := sig } := by
  have h0 : ¬ resps.length = 0 := fun h => hne (List.length_eq_zero.mp h)
  simp [CreateSignedTx, h0, GetHeader, GetChaincodeProposalPayload, GetSignatureHeader,
    UnmarshalSignatureHeader, GetChaincodeHeaderExtension, UnmarshalChannelHeader,
    hH, hP, hS, hC, hE, hId]

/-! ## CreateSignedTx: the claims -/

/-- C1 (the code departs from the claim): on a decodable proposal of the signer,
the responses `[{200, P}, {500, P}]` are turned into an envelope, although the
second status is outside `[200, 400)`; the status is compared in the first
iteration only. -/
theorem CreateSignedTx_accepts_failed_later_response :
    CreateSignedTx demoLib (some demoProposal) demoSigner
        [some (demoResponse 200 [5] 1), some (demoResponse 500 [5] 2)]
      = .ok { Payload := [7, 2, 99, 104, 3, 1, 2, 3, 4, 3, 1, 2, 3, 14, 1, 9, 1, 5, 1, 1, 2, 1,
                1, 1, 2, 2, 2, 2]
              Signature := [28, 7] } := by
  decide

/-- C2: on a decodable proposal whose header creator is the signer's identity
and a non-empty list of present responses with all statuses in `[200, 400)`, a
response whose payload differs from the first one's makes `CreateSignedTx` fail
with the error `ProposalResponsePayloads from Peers do not match`; and for all
arguments, when `CreateSignedTx` returns an envelope all responses are present
and carry one and the same payload. -/
theorem CreateSignedTx_payload_disagreement (lib : Lib) (proposal : Proposal) (signer : Crypto)
    (hdr : Header) (pPayl : ChaincodeProposalPayload) (shdr : SignatureHeader)
    (chdr : ChannelHeader) (ext : ChaincodeHeaderExtension)
    (pr0 : ProposalResponse) (prs : List ProposalResponse)
    (hH : lib.unmarshalHeader proposal.Header = .ok hdr)
    (hP : lib.unmarshalChaincodeProposalPayload proposal.Payload = .ok pPayl)
    (hS : lib.unmarshalSignatureHeader hdr.SignatureHeader = .ok shdr)
    (hC : lib.unmarshalChannelHeader hdr.ChannelHeader = .ok chdr)
    (hE : lib.unmarshalChaincodeHeaderExtension chdr.Extension = .ok ext)
    (hId : signer.Serialize = .ok shdr.Creator)
    (hstatus : ∀ pr ∈ pr0 :: prs, ∃ resp, pr.Response = some resp
      ∧ 200 ≤ resp.Status ∧ resp.Status < 400)
    (hdis : ∃ pr ∈ prs, pr.Payload ≠ pr0.Payload) :
    CreateSignedTx lib (some proposal) signer ((pr0 :: prs).map some) = .err .payloadsDoNotMatch
    ∧ Err.message .payloadsDoNotMatch
        = "ProposalResponsePayloads from Peers do not match".toList
    ∧ ∀ (anyProposal : Option Proposal) (resps : List (Option ProposalResponse))
        (env : Envelope), CreateSignedTx lib anyProposal signer resps = .ok env →
        ∃ a1, ∀ r ∈ resps, ∃ pr, r = some pr ∧ pr.Payload = a1 := by
  refine ⟨?_, rfl, ?_⟩
  · obtain ⟨resp, hR, hlo, hhi⟩ := hstatus pr0 (List.mem_cons_self _ _)
    rw [CreateSignedTx_decoded lib proposal signer _ hdr pPayl shdr chdr ext (by simp)
      hH hP hS hC hE hId]
    rw [List.map_cons, endorsementLoop_zero_cons pr0 resp _ hR hlo hhi,
      endorsementLoop_succ_mismatch 0 pr0.Payload prs _ hdis]
    rfl
  · intro anyProposal resps env h
    obtain ⟨hne, x, hx⟩ := CreateSignedTx_ok_loop lib anyProposal signer resps env h
    exact ⟨x.1, endorsementLoop_zero_inv resps x hx hne⟩

/-- C2 at a concrete input: two successful responses with payloads `[5]` and `[6]`. -/
theorem CreateSignedTx_payload_disagreement_witness :
    CreateSignedTx demoLib (some demoProposal) demoSigner
        ([demoResponse 200 [5] 1, demoResponse 200 [6] 2].map some)
      = .err .payloadsDoNotMatch :=
  (CreateSignedTx_payload_disagreement demoLib demoProposal demoSigner
    { ChannelHeader := [99, 104], SignatureHeader := [3, 1, 2, 3] }
    { Input := [9], TransientMap := [] }
    { Creator := [1, 2, 3], Nonce := [] }
    { Typ := .ENDORSER_TRANSACTION, ChannelId := [], TxId := [], Extension := [99, 104] }
    { ChaincodeId := none }
    (demoResponse 200 [5] 1) [demoResponse 200 [6] 2]
    (by decide) (by decide) (by decide) (by decide) (by decide) (by decide)
    (by decide) (by decide)).1

/-- C3: on a decodable proposal whose header creator is the signer's identity
and a non-empty list of present responses with all statuses in `[200, 400)` and
all payloads equal, when the four encoders and the signer succeed
`CreateSignedTx` returns the envelope of the encoded payload and its signature:
the endorsed action holds the first response's payload and the endorsements of
all responses in input order, the transaction has the single action headed by
the proposal's signature header, the payload pairs the decoded header with the
encoded transaction, and the signature is `signer.Sign` of the payload bytes. -/
theorem CreateSignedTx_success (lib : Lib) (proposal : Proposal) (signer : Crypto)
    (hdr : Header) (pPayl : ChaincodeProposalPayload) (shdr : SignatureHeader)
    (chdr : ChannelHeader) (ext : ChaincodeHeaderExtension)
    (pr0 : ProposalResponse) (prs : List ProposalResponse)
    (propPayloadBytes capBytes txBytes paylBytes sig : Bytes)
    (hH : lib.unmarshalHeader proposal.Header = .ok hdr)
    (hP : lib.unmarshalChaincodeProposalPayload proposal.Payload = .ok pPayl)
    (hS : lib.unmarshalSignatureHeader hdr.SignatureHeader = .ok shdr)
    (hC : lib.unmarshalChannelHeader hdr.ChannelHeader = .ok chdr)
    (hE : lib.unmarshalChaincodeHeaderExtension chdr.Extension = .ok ext)
    (hId : signer.Serialize = .ok shdr.Creator)
    (hstatus : ∀ pr ∈ pr0 :: prs, ∃ resp, pr.Response = some resp
      ∧ 200 ≤ resp.Status ∧ resp.Status < 400)
    (hsame : ∀ pr ∈ prs, pr.Payload = pr0.Payload)
    (hPP : lib.GetBytesProposalPayloadForTx pPayl = .ok propPayloadBytes)
    (hCap : lib.GetBytesChaincodeActionPayload
      { ChaincodeProposalPayload := propPayloadBytes
        Action := { ProposalResponsePayload := pr0.Payload
                    Endorsements := (pr0 :: prs).map fun pr => pr.Endorsement } }
      = .ok capBytes)
    (hTx : lib.GetBytesTransaction
      { Actions := [{ Header := hdr.SignatureHeader, Payload := capBytes }] } = .ok txBytes)
    (hPayl : lib.GetBytesPayload { Header := hdr, Data := txBytes } = .ok paylBytes)
    (hSig : signer.Sign paylBytes = .ok sig) :
    CreateSignedTx lib (some proposal) signer ((pr0 :: prs).map some)
      = .ok { Payload := paylBytes, Signature := sig } := by
  obtain ⟨resp, hR, hlo, hhi⟩ := hstatus pr0 (List.mem_cons_self _ _)
  rw [CreateSignedTx_decoded lib proposal signer _ hdr pPayl shdr chdr ext (by simp)
    hH hP hS hC hE hId]
  rw [List.map_cons, endorsementLoop_zero_cons pr0 resp _ hR hlo hhi,
    endorsementLoop_succ_ok 0 pr0.Payload prs _ hsame]
  simp only [Result.bind_ok, List.singleton_append, hPP]
  rw [List.map_cons] at hCap
  simp only [hCap, Result.bind_ok, hTx, hPayl, hSig]

/-- C3 at a concrete input: two successful responses with the same payload. -/
theorem CreateSignedTx_success_witness :
    CreateSignedTx demoLib (some demoProposal) demoSigner
        ([demoResponse 200 [5] 1, demoResponse 200 [5] 2].map some)
      = .ok { Payload := [7, 2, 99, 104, 3, 1, 2, 3, 4, 3, 1, 2, 3, 14, 1, 9, 1, 5, 1, 1, 2, 1,
                1, 1, 2, 2, 2, 2]
              Signature := [28, 7] } :=
  CreateSignedTx_success demoLib demoProposal demoSigner
    { ChannelHeader := [99, 104], SignatureHeader := [3, 1, 2, 3] }
    { Input := [9], TransientMap := [] }
    { Creator := [1, 2, 3], Nonce := [] }
    { Typ := .ENDORSER_TRANSACTION, ChannelId := [], TxId := [], Extension := [99, 104] }
    { ChaincodeId := none }
    (demoResponse 200 [5] 1) [demoResponse 200 [5] 2]
    [9] [1, 9, 1, 5, 1, 1, 2, 1, 1, 1, 2, 2, 2, 2]
    [4, 3, 1, 2, 3, 14, 1, 9, 1, 5, 1, 1, 2, 1, 1, 1, 2, 2, 2, 2]
    [7, 2, 99, 104, 3, 1, 2, 3, 4, 3, 1, 2, 3, 14, 1, 9, 1, 5, 1, 1, 2, 1, 1, 1, 2, 2, 2, 2]
    [28, 7]
    (by decide) (by decide) (by decide) (by decide) (by decide) (by decide)
    (by decide) (by decide) (by decide) (by decide) (by decide) (by decide) (by decide)

/-- C4: with an empty response list `CreateSignedTx` returns the error
`at least one proposal response is required` and no envelope, for every
proposal (nil or not decodable included) and every signer. -/
theorem CreateSignedTx_no_responses (lib : Lib) (proposal : Option Proposal) (signer : Crypto) :
    CreateSignedTx lib proposal signer [] = .err .noResponses
    ∧ Err.message .noResponses = "at least one proposal response is required".toList :=
  ⟨rfl, rfl⟩

/-- C5: on a decodable proposal and a non-empty response list, when the creator
recorded in the signature header differs from the signer's serialized identity
`CreateSignedTx` returns the error `signer must be the same as the one
referenced in the header` and no envelope, whatever the responses are. -/
theorem CreateSignedTx_signer_mismatch (lib : Lib) (proposal : Proposal) (signer : Crypto)
    (hdr : Header) (pPayl : ChaincodeProposalPayload) (shdr : SignatureHeader)
    (signerBytes : Bytes) (resps : List (Option ProposalResponse))
    (hne : resps ≠ [])
    (hH : lib.unmarshalHeader proposal.Header = .ok hdr)
    (hP : lib.unmarshalChaincodeProposalPayload proposal.Payload = .ok pPayl)
    (hS : lib.unmarshalSignatureHeader hdr.SignatureHeader = .ok shdr)
    (hSer : signer.Serialize = .ok signerBytes)
    (hdiff : shdr.Creator ≠ signerBytes) :
    CreateSignedTx lib (some proposal) signer resps = .err .signerMismatch
    ∧ Err.message .signerMismatch
        = "signer must be the same as the one referenced in the header".toList := by
  have h0 : ¬ resps.length = 0 := fun h => hne (List.length_eq_zero.mp h)
  have h1 : signerBytes ≠ shdr.Creator := fun h => hdiff h.symm
  refine ⟨?_, rfl⟩
  simp [CreateSignedTx, h0, GetHeader, GetChaincodeProposalPayload, GetSignatureHeader,
    UnmarshalSignatureHeader, hH, hP, hS, hSer, h1]

/-- C5 at a concrete input: the identity `[4]` on a proposal created by
`[1, 2, 3]`, with a response list holding a nil response. -/
theorem CreateSignedTx_signer_mismatch_witness :
    CreateSignedTx demoLib (some demoProposal) { demoSigner with Serialize := .ok [4] }
        [none, some (demoResponse 500 [5] 1)]
      = .err .signerMismatch :=
  (CreateSignedTx_signer_mismatch demoLib demoProposal { demoSigner with Serialize := .ok [4] }
    { ChannelHeader := [99, 104], SignatureHeader := [3, 1, 2, 3] }
    { Input := [9], TransientMap := [] }
    { Creator := [1, 2, 3], Nonce := [] }
    [4] [none, some (demoResponse 500 [5] 1)]
    (by decide) (by decide) (by decide) (by decide) rfl (by decide)).1

/-! ## Decimal digits -/

theorem digitChar_isDigit (d : Nat) (h : d < 10) : (Nat.digitChar d).isDigit = true := by
  interval_cases d <;> decide

theorem digitChar_value (d : Nat) (h : d < 10) : (Nat.digitChar d).toNat - '0'.toNat = d := by
  interval_cases d <;> decide

theorem digitsValue_cons (acc : Nat) (c : Char) (cs : Str) :
    digitsValue acc (c :: cs) = digitsValue (acc * 10 + (c.toNat - '0'.toNat)) cs := rfl

theorem toDigitsCore_succ (fuel n : Nat) (ds : Str) :
    Nat.toDigitsCore 10 (fuel + 1) n ds
      = if n / 10 = 0 then Nat.digitChar (n % 10) :: ds
        else Nat.toDigitsCore 10 fuel (n / 10) (Nat.digitChar (n % 10) :: ds) := rfl

/-- Reading back the digits written by `Nat.toDigitsCore` in front of `ds`. -/
theorem digitsValue_toDigitsCore (fuel : Nat) :
    ∀ (n : Nat) (ds : Str), n < fuel →
      digitsValue 0 (Nat.toDigitsCore 10 fuel n ds) = digitsValue n ds := by
  induction fuel with
  | zero => intro n ds h; omega
  | succ fuel ih =>
    intro n ds h
    have hv : (Nat.digitChar (n % 10)).toNat - '0'.toNat = n % 10 :=
      digitChar_value (n % 10) (Nat.mod_lt n (by norm_num))
    rw [toDigitsCore_succ]
    by_cases h0 : n / 10 = 0
    · rw [if_pos h0, digitsValue_cons, hv]
      have : 0 * 10 + n % 10 = n := by omega
      rw [this]
    · rw [if_neg h0, ih (n / 10) _ (by omega), digitsValue_cons, hv]
      have : n / 10 * 10 + n % 10 = n := by omega
      rw [this]

theorem digitsValue_toDigits (n : Nat) : digitsValue 0 (Nat.toDigits 10 n) = n := by
  unfold Nat.toDigits
  rw [digitsValue_toDigitsCore (n + 1) n [] (by omega)]
  rfl

theorem toDigitsCore_isDigit (fuel : Nat) :
    ∀ (n : Nat) (ds : Str), (∀ c ∈ ds, c.isDigit = true) →
      ∀ c ∈ Nat.toDigitsCore 10 fuel n ds, c.isDigit = true := by
  induction fuel with
  | zero => intro n ds h; exact h
  | succ fuel ih =>
    intro n ds h
    have hd : ∀ c ∈ Nat.digitChar (n % 10) :: ds, c.isDigit = true := by
      intro c hc
      rcases List.mem_cons.mp hc with rfl | hc
      · exact digitChar_isDigit _ (Nat.mod_lt n (by norm_num))
      · exact h c hc
    rw [toDigitsCore_succ]
    by_cases h0 : n / 10 = 0
    · rw [if_pos h0]; exact hd
    · rw [if_neg h0]; exact ih _ _ hd

theorem toDigits_isDigit (n : Nat) : ∀ c ∈ Nat.toDigits 10 n, c.isDigit = true :=
  toDigitsCore_isDigit (n + 1) n [] (by simp)

theorem toDigitsCore_ne_nil (fuel : Nat) :
    ∀ (n : Nat) (ds : Str), ds ≠ [] → Nat.toDigitsCore 10 fuel n ds ≠ [] := by
  induction fuel with
  | zero => intro n ds h; exact h
  | succ fuel ih =>
    intro n ds _
    rw [toDigitsCore_succ]
    by_cases h0 : n / 10 = 0
    · rw [if_pos h0]; simp
    · rw [if_neg h0]; exact ih _ _ (by simp)

theorem toDigits_ne_nil (n : Nat) : Nat.toDigits 10 n ≠ [] := by
  unfold Nat.toDigits
  rw [toDigitsCore_succ]
  by_cases h0 : n / 10 = 0
  · rw [if_pos h0]; simp
  · rw [if_neg h0]; exact toDigitsCore_ne_nil _ _ _ (by simp)

/-- Value of `Atoi` on a non-empty run of digits whose value fits in an `int`. -/
theorem Atoi_digits (ds : Str) (hne : ds ≠ []) (hd : ∀ c ∈ ds, c.isDigit = true)
    (hr : (digitsValue 0 ds : Int) ≤ maxInt) : Atoi ds = .ok (digitsValue 0 ds : Int) := by
  cases ds with
  | nil => exact absurd rfl hne
  | cons c cs =>
    have hc : c.isDigit = true := hd c (List.mem_cons_self _ _)
    have hm : c ≠ '-' := by rintro rfl; exact absurd hc (by decide)
    have hp : c ≠ '+' := by rintro rfl; exact absurd hc (by decide)
    have hall : (c :: cs).all Char.isDigit = true := List.all_eq_true.mpr hd
    have hlo : ¬ ((digitsValue 0 (c :: cs) : Int) < minInt) := by
      have : (0 : Int) ≤ (digitsValue 0 (c :: cs) : Int) := Int.ofNat_nonneg _
      have hmin : minInt < 0 := by decide
      omega
    have h1 : ¬ ((c :: cs).head? = some '-' ∨ (c :: cs).head? = some '+') := by
      simp [hm, hp]
    have h2 : ¬ ((c :: cs).head? = some '-') := by simp [hm]
    have h3 : ¬ ((digitsValue 0 (c :: cs) : Int) < minInt ∨ maxInt < (digitsValue 0 (c :: cs) : Int)) := by
      push_neg; exact ⟨by omega, hr⟩
    unfold Atoi
    simp only [if_neg h1, if_neg h2, hall, reduceCtorEq, not_true_eq_false, or_self, if_false,
      if_neg h3]

/-! ## Prefixes, splitting and the two patterns -/

theorem stripPrefix_append (p t : Str) : stripPrefix p (p ++ t) = some t := by
  induction p with
  | nil => cases t <;> rfl
  | cons c p ih => simp [stripPrefix, ih]

theorem TrimPrefix_append (p t : Str) : TrimPrefix (p ++ t) p = t := by
  simp [TrimPrefix, stripPrefix_append]

theorem matchAnywhere_head (p : Str → Bool) (s : Str) (h : p s = true) :
    matchAnywhere p s = true := by
  cases s with
  | nil => simpa [matchAnywhere] using h
  | cons c cs => simp [matchAnywhere, h]

/-- The pattern `randomString(\d*)` needs an `r` to start a match. -/
theorem regStringAt_no_r (t : Str) (h : ∀ c ∈ t, c ≠ 'r') :
    matchAnywhere regStringAt t = false := by
  induction t with
  | nil => rfl
  | cons c cs ih =>
    have hc : ¬ 'r' = c := fun e => h c (List.mem_cons_self _ _) e.symm
    have hcs : ∀ d ∈ cs, d ≠ 'r' := fun d hd => h d (List.mem_cons_of_mem _ hd)
    have h1 : regStringAt (c :: cs) = false := by
      show (stripPrefix ('r' :: "andomString".toList) (c :: cs)).isSome = false
      simp [stripPrefix, hc]
    simp [matchAnywhere, h1, ih hcs]

/-- The pattern `randomNumber(\d*)_(\d*)` needs an `r` to start a match. -/
theorem regNumberAt_no_r (t : Str) (h : ∀ c ∈ t, c ≠ 'r') :
    matchAnywhere regNumberAt t = false := by
  induction t with
  | nil => rfl
  | cons c cs ih =>
    have hc : ¬ 'r' = c := fun e => h c (List.mem_cons_self _ _) e.symm
    have hcs : ∀ d ∈ cs, d ≠ 'r' := fun d hd => h d (List.mem_cons_of_mem _ hd)
    have h1 : regNumberAt (c :: cs) = false := by
      have : stripPrefix ('r' :: "andomNumber".toList) (c :: cs) = none := by
        simp [stripPrefix, hc]
      show (match stripPrefix ('r' :: "andomNumber".toList) (c :: cs) with
        | none => false
        | some rest =>
          match rest.dropWhile Char.isDigit with
          | '_' :: _ => true
          | _ => false) = false
      rw [this]
    simp [matchAnywhere, h1, ih hcs]

theorem regStringMatch_at_start (t : Str) :
    regStringMatch ("randomString".toList ++ t) = true :=
  matchAnywhere_head _ _ (by
    show (stripPrefix "randomString".toList ("randomString".toList ++ t)).isSome = true
    rw [stripPrefix_append]
    rfl)

/-- No match of `randomString(\d*)` in `randomNumber` followed by digits and underscores. -/
theorem regStringMatch_randomNumber (t : Str) (h : ∀ c ∈ t, c.isDigit = true ∨ c = '_') :
    regStringMatch ("randomNumber".toList ++ t) = false := by
  have hr : ∀ c ∈ t, c ≠ 'r' := by
    intro c hc e
    subst e
    rcases h _ hc with h | h
    · exact absurd h (by decide)
    · exact absurd h (by decide)
  have h1 : (stripPrefix "andomString".toList t).isSome = false := by
    cases t with
    | nil => rfl
    | cons c cs =>
      have hc : ¬ 'a' = c := by
        intro e
        subst e
        rcases h _ (List.mem_cons_self _ _) with h | h
        · exact absurd h (by decide)
        · exact absurd h (by decide)
      show (stripPrefix ('a' :: "ndomString".toList) (c :: cs)).isSome = false
      simp [stripPrefix, hc]
  have h2 := regStringAt_no_r t hr
  show matchAnywhere regStringAt
    ('r' :: 'a' :: 'n' :: 'd' :: 'o' :: 'm' :: 'N' :: 'u' :: 'm' :: 'b' :: 'e' :: 'r' :: t) = false
  simp only [matchAnywhere, h2, Bool.or_false]
  have h3 : regStringAt ('r' :: t) = false := h1
  rw [h3]
  rfl

/-- No match of `randomNumber(\d*)_(\d*)` in `randomString` followed by digits. -/
theorem regNumberMatch_randomString (t : Str) (h : ∀ c ∈ t, c.isDigit = true) :
    regNumberMatch ("randomString".toList ++ t) = false := by
  have hr : ∀ c ∈ t, c ≠ 'r' := by
    intro c hc e
    subst e
    exact absurd (h _ hc) (by decide)
  have h2 := regNumberAt_no_r t hr
  show matchAnywhere regNumberAt
    ('r' :: 'a' :: 'n' :: 'd' :: 'o' :: 'm' :: 'S' :: 't' :: 'r' :: 'i' :: 'n' :: 'g' :: t) = false
  simp only [matchAnywhere, h2, Bool.or_false]
  rfl

theorem dropWhile_digits (ds rest : Str) (h : ∀ c ∈ ds, c.isDigit = true) :
    (ds ++ '_' :: rest).dropWhile Char.isDigit = '_' :: rest := by
  induction ds with
  | nil => rfl
  | cons c cs ih =>
    have hc : c.isDigit = true := h c (List.mem_cons_self _ _)
    simp [List.dropWhile, hc, ih (fun d hd => h d (List.mem_cons_of_mem _ hd))]

theorem regNumberMatch_at_start (ds rest : Str) (h : ∀ c ∈ ds, c.isDigit = true) :
    regNumberMatch ("randomNumber".toList ++ (ds ++ '_' :: rest)) = true :=
  matchAnywhere_head _ _ (by
    show (match stripPrefix "randomNumber".toList ("randomNumber".toList ++ (ds ++ '_' :: rest)) with
      | none => false
      | some rest =>
        match rest.dropWhile Char.isDigit with
        | '_' :: _ => true
        | _ => false) = true
    rw [stripPrefix_append]
    simp only [dropWhile_digits ds rest h])

theorem Split_no_sep (s : Str) (sep : Char) (h : sep ∉ s) : Split s sep = [s] := by
  induction s with
  | nil => rfl
  | cons c cs ih =>
    have hc : ¬ c = sep := fun e => h (e ▸ List.mem_cons_self _ _)
    have hcs : sep ∉ cs := fun hm => h (List.mem_cons_of_mem _ hm)
    simp [Split, hc, ih hcs]

theorem Split_append_sep (a b : Str) (sep : Char) (h : sep ∉ a) :
    Split (a ++ sep :: b) sep = a :: Split b sep := by
  induction a with
  | nil => simp [Split]
  | cons c cs ih =>
    have hc : ¬ c = sep := fun e => h (e ▸ List.mem_cons_self _ _)
    have hcs : sep ∉ cs := fun hm => h (List.mem_cons_of_mem _ hm)
    simp [Split, hc, ih hcs]

theorem digits_no_underscore (ds : Str) (h : ∀ c ∈ ds, c.isDigit = true) : '_' ∉ ds :=
  fun hm => absurd (h _ hm) (by decide)

/-! ## The generator -/

theorem Intn_pos (n : Int) (w : World) (hn : 0 < n) :
    Intn n w = (.ok ((w.draws w.pos : Int) % n), { w with pos := w.pos + 1 }) := by
  simp [Intn, not_le.mpr hn]

theorem Intn_nonpos (n : Int) (w : World) (hn : n ≤ 0) :
    Intn n w = (.panic "invalid argument to Intn".toList, w) := by
  simp [Intn, hn]

theorem charset_length : charset.length = 62 := by decide

theorem charset_isAlphanum : ∀ c ∈ charset, c.isAlphanum = true := by decide

/-- The filling loop always completes, with as many characters as positions,
all taken from the character set. -/
theorem fillCharset_ok (k : Nat) :
    ∀ w : World, ∃ (s : Str) (w' : World),
      fillCharset charset k w = (.ok s, w') ∧ s.length = k ∧ ∀ c ∈ s, c ∈ charset := by
  induction k with
  | zero => intro w; exact ⟨[], w, rfl, rfl, by simp⟩
  | succ k ih =>
    intro w
    have hpos : (0 : Int) < (charset.length : Int) := by rw [charset_length]; decide
    have hlt : ((w.draws w.pos : Int) % (charset.length : Int)).toNat < charset.length := by
      have h1 := Int.emod_lt_of_pos (w.draws w.pos : Int) hpos
      have h2 := Int.emod_nonneg (w.draws w.pos : Int) (ne_of_gt hpos)
      omega
    obtain ⟨s, w', hs, hlen, hall⟩ := ih { w with pos := w.pos + 1 }
    refine ⟨charset.get ⟨_, hlt⟩ :: s, w', ?_, by simp [hlen], ?_⟩
    · simp only [fillCharset, Intn_pos _ w hpos, andThen_ok, List.get?_eq_get hlt, hs]
    · intro c hc
      rcases List.mem_cons.mp hc with rfl | hc
      · exact List.get_mem _ _ _
      · exact hall c hc

/-! ## Expansion of one argument -/

/-- An argument that is not `uuid` and in which neither pattern matches is
appended unchanged, without a draw. -/
theorem expandArg_literal (arg : Str) (w : World) (hu : arg ≠ "uuid".toList)
    (hs : regStringMatch arg = false) (hn : regNumberMatch arg = false) :
    expandArg arg w = (.ok (toBytes arg), w) := by
  simp only [expandArg, if_neg hu, hs, hn, Bool.false_eq_true, if_false, andThen_ok]

theorem allocationLimit_le (w : World) : allocationLimit w ≤ 2 ^ 48 := by
  unfold allocationLimit maxAlloc
  exact Nat.min_le_right _ _

/-- Expansion of `randomString` followed by a run of digits of positive value
that does not exceed the allocation limit. -/
theorem expandArg_randomString (ds : Str) (w : World) (hne : ds ≠ [])
    (hd : ∀ c ∈ ds, c.isDigit = true) (hpos : 0 < digitsValue 0 ds)
    (hfit : digitsValue 0 ds ≤ allocationLimit w) :
    ∃ (s : Str) (w' : World),
      expandArg ("randomString".toList ++ ds) w = (.ok (toBytes s), w')
      ∧ s.length = digitsValue 0 ds ∧ ∀ c ∈ s, c ∈ charset := by
  obtain ⟨s, w', hs, hlen, hall⟩ := fillCharset_ok (digitsValue 0 ds) w
  refine ⟨s, w', ?_, hlen, hall⟩
  have hu : ¬ ("randomString".toList ++ ds = "uuid".toList) := by
    intro h
    have h1 : ('r' :: ("andomString".toList ++ ds)) = 'u' :: "uid".toList := h
    injection h1 with h2 _
    exact absurd h2 (by decide)
  have hlim := allocationLimit_le w
  have hr : (digitsValue 0 ds : Int) ≤ maxInt := by
    have hm : maxInt = 2 ^ 63 - 1 := rfl
    rw [hm]
    omega
  have h1 : ¬ ((digitsValue 0 ds : Int) ≤ 0) := by omega
  have h2 : ¬ ((digitsValue 0 ds : Int) < 0
      ∨ (allocationLimit w : Int) < (digitsValue 0 ds : Int)) := by omega
  simp only [expandArg, if_neg hu, regStringMatch_at_start, if_true, TrimPrefix_append,
    Atoi_digits ds hne hd hr, randomString, if_neg h1, stringWithCharset, if_neg h2,
    Int.toNat_ofNat, hs, andThen_ok, regNumberMatch_randomString ds hd, Bool.false_eq_true,
    if_false]

/-- Expansion of `randomNumber`, digits of value `lo`, an underscore and digits
of value `hi`, for `lo < hi`. -/
theorem expandArg_randomNumber (ds1 ds2 : Str) (w : World) (hne1 : ds1 ≠ []) (hne2 : ds2 ≠ [])
    (hd1 : ∀ c ∈ ds1, c.isDigit = true) (hd2 : ∀ c ∈ ds2, c.isDigit = true)
    (hlt : digitsValue 0 ds1 < digitsValue 0 ds2)
    (hr : (digitsValue 0 ds2 : Int) ≤ maxInt) :
    ∃ (v : Int) (w' : World),
      expandArg ("randomNumber".toList ++ (ds1 ++ '_' :: ds2)) w = (.ok (toBytes (Itoa v)), w')
      ∧ (digitsValue 0 ds1 : Int) ≤ v ∧ v < (digitsValue 0 ds2 : Int) := by
  have hu : ¬ ("randomNumber".toList ++ (ds1 ++ '_' :: ds2) = "uuid".toList) := by
    intro h
    have h1 : ('r' :: ("andomNumber".toList ++ (ds1 ++ '_' :: ds2))) = 'u' :: "uid".toList := h
    injection h1 with h2 _
    exact absurd h2 (by decide)
  have hchars : ∀ c ∈ ds1 ++ '_' :: ds2, c.isDigit = true ∨ c = '_' := by
    intro c hc
    rcases List.mem_append.mp hc with h | h
    · exact Or.inl (hd1 c h)
    · rcases List.mem_cons.mp h with h | h
      · exact Or.inr h
      · exact Or.inl (hd2 c h)
  have hr1 : (digitsValue 0 ds1 : Int) ≤ maxInt := by omega
  have hsplit : Split (ds1 ++ '_' :: ds2) '_' = [ds1, ds2] := by
    rw [Split_append_sep ds1 ds2 '_' (digits_no_underscore ds1 hd1),
      Split_no_sep ds2 '_' (digits_no_underscore ds2 hd2)]
  have hmin : ¬ ((digitsValue 0 ds1 : Int) < 0) := by omega
  have hmax : ¬ ((digitsValue 0 ds2 : Int) ≤ 0) := by omega
  have hpos : (0 : Int) < (digitsValue 0 ds2 : Int) - (digitsValue 0 ds1 : Int) := by omega
  refine ⟨(w.draws w.pos : Int) % ((digitsValue 0 ds2 : Int) - (digitsValue 0 ds1 : Int))
    + (digitsValue 0 ds1 : Int), { w with pos := w.pos + 1 }, ?_, ?_, ?_⟩
  · simp only [expandArg, if_neg hu, regStringMatch_randomNumber _ hchars, Bool.false_eq_true,
      if_false, andThen_ok, regNumberMatch_at_start ds1 ds2 hd1, if_true, TrimPrefix_append,
      hsplit, List.get?, Atoi_digits ds1 hne1 hd1 hr1, Atoi_digits ds2 hne2 hd2 hr,
      randomInt, if_neg hmin, if_neg hmax, Intn_pos _ w hpos]
  · have := Int.emod_nonneg (w.draws w.pos : Int) (ne_of_gt hpos)
    omega
  · have := Int.emod_lt_of_pos (w.draws w.pos : Int) hpos
    omega

/-- A call on one argument whose expansion returns a value. -/
theorem CreateProposal_single_ok (lib : Lib) (signer : Crypto) (channel ccname version : Str)
    (arg : Str) (w w' : World) (b : Bytes) (h : expandArg arg w = (.ok b, w')) :
    CreateProposal lib signer channel ccname version [arg] w
      = encodeProposal lib signer channel ccname version [b] w' := by
  simp [CreateProposal, expandArgs, h]

/-- A call on one argument whose expansion returns an error. -/
theorem CreateProposal_single_err (lib : Lib) (signer : Crypto) (channel ccname version : Str)
    (arg : Str) (w w' : World) (e : Err) (h : expandArg arg w = (.err e, w')) :
    CreateProposal lib signer channel ccname version [arg] w = (.err e, w') := by
  simp [CreateProposal, expandArgs, h]

theorem Itoa_nonneg (v : Int) (h : 0 ≤ v) : Itoa v = Nat.toDigits 10 v.toNat := by
  simp [Itoa, not_lt.mpr h]

/-! ## CreateProposal: the claims -/

/-- C6 (the code departs from the claim): the literal arguments
`xrandomString5` and `randomStringer` are none of the three templates, yet
`CreateProposal` returns the error of `strconv.Atoi` on them and no proposal:
the pattern `randomString(\d*)` is searched anywhere in the argument, and what
`TrimPrefix` leaves is parsed as the length. -/
theorem CreateProposal_literal_rejected (lib : Lib) (signer : Crypto)
    (channel ccname version : Str) (w : World) :
    CreateProposal lib signer channel ccname version ["xrandomString5".toList] w
      = (.err (.atoi "xrandomString5".toList), w)
    ∧ CreateProposal lib signer channel ccname version ["randomStringer".toList] w
      = (.err (.atoi "er".toList), w) :=
  ⟨rfl, rfl⟩

/-- C7 (amended): for every `N ≥ 1` that does not exceed the allocation limit
of `make([]byte, N)` (itself at most `2^48`, so `N` is within the range of
`int`) and every state of the generator, the argument `randomString<N>` is
expanded to the bytes of a string of exactly `N` characters, all of them from
the character set (letters and digits), and that string is the single argument
encoded by `CreateProposal`. -/
theorem CreateProposal_randomString_length (N : Nat) (lib : Lib) (signer : Crypto)
    (channel ccname version : Str) (w : World) (hpos : 0 < N) (hfit : N ≤ allocationLimit w) :
    ∃ (s : Str) (w' : World),
      s.length = N ∧ (∀ c ∈ s, c ∈ charset ∧ c.isAlphanum = true)
      ∧ expandArg ("randomString".toList ++ Nat.toDigits 10 N) w = (.ok (toBytes s), w')
      ∧ CreateProposal lib signer channel ccname version
          ["randomString".toList ++ Nat.toDigits 10 N] w
        = encodeProposal lib signer channel ccname version [toBytes s] w' := by
  have hv := digitsValue_toDigits N
  obtain ⟨s, w', hs, hlen, hall⟩ :=
    expandArg_randomString (Nat.toDigits 10 N) w (toDigits_ne_nil N) (toDigits_isDigit N)
      (by omega) (by rw [hv]; exact hfit)
  exact ⟨s, w', by omega, fun c hc => ⟨hall c hc, charset_isAlphanum c (hall c hc)⟩, hs,
    CreateProposal_single_ok lib signer channel ccname version _ w w' _ hs⟩

/-- C7 (amended) at `randomString7`. -/
theorem CreateProposal_randomString_length_witness :
    ∃ (s : Str) (w' : World),
      s.length = 7 ∧ (∀ c ∈ s, c ∈ charset ∧ c.isAlphanum = true)
      ∧ expandArg ("randomString".toList ++ Nat.toDigits 10 7) (constWorld 3)
          = (.ok (toBytes s), w')
      ∧ CreateProposal demoLib demoSigner "ch".toList "cc".toList []
          ["randomString".toList ++ Nat.toDigits 10 7] (constWorld 3)
        = encodeProposal demoLib demoSigner "ch".toList "cc".toList [] [toBytes s] w' :=
  CreateProposal_randomString_length 7 demoLib demoSigner "ch".toList "cc".toList []
    (constWorld 3) (by decide) (by decide)

/-- C7 (as stated, refuted at `N = 0` and at `N = 2^63 - 1`): `randomString0`
is not expanded to a string of 0 characters, with all draws 0 it is expanded
to `aa`; and `randomString9223372036854775807` is not expanded at all, the
allocation of its `2^63 - 1` bytes panics. -/
theorem CreateProposal_randomString_zero_counterexample :
    ((expandArg ("randomString".toList ++ Nat.toDigits 10 0) (constWorld 0)).1
        = .ok (toBytes "aa".toList)
      ∧ ¬ ∃ s : Str, s.length = 0
          ∧ (expandArg ("randomString".toList ++ Nat.toDigits 10 0) (constWorld 0)).1
            = .ok (toBytes s))
    ∧ (Atoi "9223372036854775807".toList = .ok (2 ^ 63 - 1)
      ∧ (expandArg "randomString9223372036854775807".toList (constWorld 0)).1
        = .panic "makeslice: len out of range".toList
      ∧ (CreateProposal demoLib demoSigner "ch".toList "cc".toList []
          ["randomString9223372036854775807".toList] (constWorld 0)).1
        = .panic "makeslice: len out of range".toList) := by
  refine ⟨⟨by decide, ?_⟩, by decide, by decide, by decide⟩
  rintro ⟨s, hlen, h⟩
  have hs : s = [] := List.length_eq_zero.mp hlen
  subst hs
  exact absurd h (by decide)

/-- C8 (the code departs from the claim): the argument `randomString` with no
length makes `CreateProposal` return the error of `strconv.Atoi` on the empty
string, and no proposal, for every state of the generator. -/
theorem CreateProposal_randomString_no_length (lib : Lib) (signer : Crypto)
    (channel ccname version : Str) (w : World) :
    CreateProposal lib signer channel ccname version ["randomString".toList] w
      = (.err (.atoi []), w) :=
  rfl

/-- C9 (amended): for all integers `0 ≤ MIN < MAX ≤ 2^63 - 1` and every state
of the generator, the argument `randomNumber<MIN>_<MAX>` is expanded to the
decimal rendering of an integer `v` with `MIN ≤ v < MAX`, and that rendering is
the single argument encoded by `CreateProposal`. -/
theorem CreateProposal_randomNumber_range (MIN MAX : Int) (h0 : 0 ≤ MIN) (hlt : MIN < MAX)
    (hmax : MAX ≤ maxInt)
    (lib : Lib) (signer : Crypto) (channel ccname version : Str) (w : World) :
    ∃ (v : Int) (w' : World),
      MIN ≤ v ∧ v < MAX
      ∧ expandArg ("randomNumber".toList ++ (Itoa MIN ++ '_' :: Itoa MAX)) w
          = (.ok (toBytes (Itoa v)), w')
      ∧ CreateProposal lib signer channel ccname version
          ["randomNumber".toList ++ (Itoa MIN ++ '_' :: Itoa MAX)] w
        = encodeProposal lib signer channel ccname version [toBytes (Itoa v)] w' := by
  have h1 : 0 ≤ MAX := by omega
  rw [Itoa_nonneg MIN h0, Itoa_nonneg MAX h1]
  have hv1 := digitsValue_toDigits MIN.toNat
  have hv2 := digitsValue_toDigits MAX.toNat
  have e1 : ((MIN.toNat : Nat) : Int) = MIN := Int.toNat_of_nonneg h0
  have e2 : ((MAX.toNat : Nat) : Int) = MAX := Int.toNat_of_nonneg h1
  obtain ⟨v, w', hs, hlo, hhi⟩ :=
    expandArg_randomNumber (Nat.toDigits 10 MIN.toNat) (Nat.toDigits 10 MAX.toNat) w
      (toDigits_ne_nil _) (toDigits_ne_nil _) (toDigits_isDigit _) (toDigits_isDigit _)
      (by rw [hv1, hv2]; omega) (by rw [hv2, e2]; exact hmax)
  rw [hv1, e1] at hlo
  rw [hv2, e2] at hhi
  exact ⟨v, w', hlo, hhi, hs,
    CreateProposal_single_ok lib signer channel ccname version _ w w' _ hs⟩

/-- C9 (amended) at `randomNumber5_10`. -/
theorem CreateProposal_randomNumber_range_witness :
    ∃ (v : Int) (w' : World),
      5 ≤ v ∧ v < 10
      ∧ expandArg ("randomNumber".toList ++ (Itoa 5 ++ '_' :: Itoa 10)) (constWorld 7)
          = (.ok (toBytes (Itoa v)), w')
      ∧ CreateProposal demoLib demoSigner "ch".toList "cc".toList []
          ["randomNumber".toList ++ (Itoa 5 ++ '_' :: Itoa 10)] (constWorld 7)
        = encodeProposal demoLib demoSigner "ch".toList "cc".toList [] [toBytes (Itoa v)] w' :=
  CreateProposal_randomNumber_range 5 10 (by decide) (by decide) (by decide) demoLib demoSigner
    "ch".toList "cc".toList [] (constWorld 7)

/-- C9 (as stated, refuted at `MIN = -5`, `MAX = 10`): the argument
`randomNumber-5_10` is appended unchanged, which is the decimal rendering of no
integer `v` with `-5 ≤ v < 10`. -/
theorem CreateProposal_randomNumber_negative_counterexample :
    (expandArg ("randomNumber".toList ++ (Itoa (-5) ++ '_' :: Itoa 10)) (constWorld 0)).1
      = .ok (toBytes "randomNumber-5_10".toList)
    ∧ ¬ ∃ v : Int, -5 ≤ v ∧ v < 10
        ∧ (expandArg ("randomNumber".toList ++ (Itoa (-5) ++ '_' :: Itoa 10)) (constWorld 0)).1
          = .ok (toBytes (Itoa v)) := by
  refine ⟨by decide, ?_⟩
  rintro ⟨v, hlo, hhi, h⟩
  interval_cases v <;> exact absurd h (by decide)

/-- C10 (the code departs from the claim): for every `MAX` the argument
`randomNumber_<MAX>`, with `MIN` absent, makes `CreateProposal` return the
error of `strconv.Atoi` on the empty string, and no proposal, for every state
of the generator. -/
theorem CreateProposal_randomNumber_no_min (MAX : Nat) (lib : Lib) (signer : Crypto)
    (channel ccname version : Str) (w : World) :
    CreateProposal lib signer channel ccname version
        ["randomNumber_".toList ++ Nat.toDigits 10 MAX] w
      = (.err (.atoi []), w) := by
  apply CreateProposal_single_err
  have harg : "randomNumber_".toList ++ Nat.toDigits 10 MAX
      = "randomNumber".toList ++ ([] ++ '_' :: Nat.toDigits 10 MAX) := rfl
  rw [harg]
  have hu : ¬ ("randomNumber".toList ++ ([] ++ '_' :: Nat.toDigits 10 MAX) = "uuid".toList) := by
    intro h
    have h1 : ('r' :: ("andomNumber".toList ++ ([] ++ '_' :: Nat.toDigits 10 MAX)))
        = 'u' :: "uid".toList := h
    injection h1 with h2 _
    exact absurd h2 (by decide)
  have hchars : ∀ c ∈ ([] : Str) ++ '_' :: Nat.toDigits 10 MAX, c.isDigit = true ∨ c = '_' := by
    intro c hc
    rcases List.mem_cons.mp hc with h | h
    · exact Or.inr h
    · exact Or.inl (toDigits_isDigit MAX c h)
  have hsplit : Split ([] ++ '_' :: Nat.toDigits 10 MAX) '_'
      = [] :: Split (Nat.toDigits 10 MAX) '_' :=
    Split_append_sep [] _ '_' (by simp)
  have hatoi : Atoi [] = .err (.atoi []) := by decide
  simp only [expandArg, if_neg hu, regStringMatch_randomNumber _ hchars, Bool.false_eq_true,
    if_false, andThen_ok, regNumberMatch_at_start [] _ (by simp), if_true, TrimPrefix_append,
    hsplit, List.get?, hatoi]

/-! ## SignProposal, the seek request, randomInt and randomString: the claims -/

/-- C12: `SignProposal` returns a signed proposal exactly when `proto.Marshal`
of the proposal and `signer.Sign` of the marshalled bytes both return a value,
and the signed proposal then holds those bytes as `ProposalBytes` and that
signature as `Signature`; when the signer returns an error, `SignProposal`
returns that error and no signed proposal. -/
theorem SignProposal_spec (lib : Lib) (prop : Option Proposal) (signer : Crypto) :
    (∀ sp : SignedProposal, SignProposal lib prop signer = .ok sp ↔
      ∃ propBytes sig, lib.marshalProposal prop = .ok propBytes
        ∧ signer.Sign propBytes = .ok sig
        ∧ sp = { ProposalBytes := propBytes, Signature := sig })
    ∧ (∀ propBytes e, lib.marshalProposal prop = .ok propBytes →
        signer.Sign propBytes = .err e → SignProposal lib prop signer = .err e) := by
  constructor
  · intro sp
    constructor
    · intro h
      unfold SignProposal at h
      cases hm : lib.marshalProposal prop with
      | err e => simp [hm] at h
      | panic m => simp [hm] at h
      | ok propBytes =>
        cases hs : signer.Sign propBytes with
        | err e => simp [hm, hs] at h
        | panic m => simp [hm, hs] at h
        | ok sig =>
          simp only [hm, hs, Result.bind_ok, Result.ok.injEq] at h
          exact ⟨propBytes, sig, rfl, hs, h.symm⟩
    · rintro ⟨propBytes, sig, hm, hs, rfl⟩
      simp [SignProposal, hm, hs]
  · intro propBytes e hm hs
    simp [SignProposal, hm, hs]

/-- C12 at a concrete input: the proposal of the demonstration instance, and a
signer that fails. -/
theorem SignProposal_spec_witness :
    SignProposal demoLib (some demoProposal) demoSigner
        = .ok { ProposalBytes := [7, 2, 99, 104, 3, 1, 2, 3, 9], Signature := [9, 7] }
    ∧ SignProposal demoLib (some demoProposal)
        { demoSigner with Sign := fun _ => .err (.external "no key".toList) }
        = .err (.external "no key".toList) :=
  ⟨((SignProposal_spec demoLib (some demoProposal) demoSigner).1 _).2
      ⟨[7, 2, 99, 104, 3, 1, 2, 3, 9], [9, 7], by decide, by decide, rfl⟩,
    (SignProposal_spec demoLib (some demoProposal)
      { demoSigner with Sign := fun _ => .err (.external "no key".toList) }).2
      [7, 2, 99, 104, 3, 1, 2, 3, 9] (.external "no key".toList) (by decide) rfl⟩

/-- C13: for every channel name and signer, `CreateSignedDeliverNewestEnv` is
the call of `protoutil.CreateSignedEnvelope` with header type
`DELIVER_SEEK_INFO`, the given channel, the signer, version 0, epoch 0 and a
seek request whose start is `Newest`, whose stop is the specified block number
`2^64 - 1` (no unsigned 64-bit number is larger) and whose behaviour is
`BLOCK_UNTIL_READY`. -/
theorem CreateSignedDeliverNewestEnv_request (lib : Lib) (ch : Str) (signer : Crypto) :
    ∃ seekInfo : SeekInfo,
      seekInfo.Start = .Newest
      ∧ seekInfo.Stop = .Specified (2 ^ 64 - 1)
      ∧ MaxUint64 = 2 ^ 64 - 1
      ∧ (∀ n : Nat, n < 2 ^ 64 → n ≤ MaxUint64)
      ∧ seekInfo.Behavior = .BLOCK_UNTIL_READY
      ∧ CreateSignedDeliverNewestEnv lib ch signer
          = lib.CreateSignedEnvelope .DELIVER_SEEK_INFO ch signer seekInfo 0 0 := by
  refine ⟨{ Start := .Newest, Stop := .Specified MaxUint64, Behavior := .BLOCK_UNTIL_READY },
    rfl, by simp [MaxUint64], by simp [MaxUint64], ?_, rfl, rfl⟩
  intro n hn
  simp only [MaxUint64]
  omega

/-- C14: `randomInt` clamps and then computes.  With `min' = max(min, 0)` and
`max' = max` when `max > 0`, else `1`: when `min' < max'` the call returns an
integer `v` with `min' ≤ v < max'`, in every state of the generator; when
`min' ≥ max'` it returns no value: `Intn` is called on the bound
`max' - min' ≤ 0` and panics. -/
theorem randomInt_clamp_then_compute (min max : Int) (w : World) :
    (Max.max min 0 < (if max > 0 then max else 1) →
      ∃ (v : Int) (w' : World), randomInt min max w = (.ok v, w')
        ∧ Max.max min 0 ≤ v ∧ v < (if max > 0 then max else 1))
    ∧ ((if max > 0 then max else 1) ≤ Max.max min 0 →
      randomInt min max w = (.panic "invalid argument to Intn".toList, w)
      ∧ Intn ((if max > 0 then max else 1) - Max.max min 0) w
          = (.panic "invalid argument to Intn".toList, w)) := by
  have hmin : (if min < 0 then 0 else min) = Max.max min 0 := by
    split <;> omega
  have hmax : (if max ≤ 0 then 1 else max) = (if max > 0 then max else 1) := by
    split <;> split <;> omega
  constructor
  · intro h
    have hpos : 0 < (if max > 0 then max else 1) - Max.max min 0 := by omega
    refine ⟨(w.draws w.pos : Int) % ((if max > 0 then max else 1) - Max.max min 0)
      + Max.max min 0, { w with pos := w.pos + 1 }, ?_, ?_, ?_⟩
    · simp only [randomInt, hmin, hmax, Intn_pos _ w hpos, andThen_ok]
    · have := Int.emod_nonneg (w.draws w.pos : Int) (ne_of_gt hpos)
      omega
    · have := Int.emod_lt_of_pos (w.draws w.pos : Int) hpos
      omega
  · intro h
    have hle : (if max > 0 then max else 1) - Max.max min 0 ≤ 0 := by omega
    refine ⟨?_, Intn_nonpos _ w hle⟩
    simp only [randomInt, hmin, hmax, Intn_nonpos _ w hle, andThen_panic]

/-- C14 at concrete inputs: the range of `randomInt(-5, 7)` and the panic of
`randomInt(5, 0)`. -/
theorem randomInt_clamp_then_compute_witness :
    (∃ (v : Int) (w' : World), randomInt (-5) 7 (constWorld 3) = (.ok v, w')
        ∧ Max.max (-5) 0 ≤ v ∧ v < (if (7 : Int) > 0 then 7 else 1))
    ∧ randomInt 5 0 (constWorld 3) = (.panic "invalid argument to Intn".toList, constWorld 3) :=
  ⟨(randomInt_clamp_then_compute (-5) 7 (constWorld 3)).1 (by decide),
    ((randomInt_clamp_then_compute 5 0 (constWorld 3)).2 (by decide)).1⟩

/-- C18 (amended): for every integer `length` and every state of the
generator, when the slice to allocate (`length` bytes when `length > 0`, at
most 16 bytes when `length ≤ 0`) does not exceed the allocation limit of
`make`, `randomString(length)` returns a string whose characters all belong to
the character set of 62 letters and digits, of exactly `length` characters
when `length > 0` and of 2 to 16 characters when `length ≤ 0`. -/
theorem randomString_charset (length : Int) (w : World)
    (hfit : (if 0 < length then length else 16) ≤ (allocationLimit w : Int)) :
    ∃ (s : Str) (w' : World), randomString length w = (.ok s, w')
      ∧ (∀ c ∈ s, c ∈ charset ∧ c.isAlphanum = true)
      ∧ charset.length = 62 ∧ charset.Nodup
      ∧ (0 < length → (s.length : Int) = length)
      ∧ (length ≤ 0 → 2 ≤ s.length ∧ s.length ≤ 16) := by
  by_cases h : length ≤ 0
  · have hpos : (0 : Int) < maxLen - minLen + 1 := by decide
    have h1 := Int.emod_nonneg (w.draws w.pos : Int) (ne_of_gt hpos)
    have h2 := Int.emod_lt_of_pos (w.draws w.pos : Int) hpos
    have hb : maxLen - minLen + 1 = 15 := by decide
    have hm : minLen = 2 := rfl
    rw [hb] at h1 h2
    rw [if_neg (by omega)] at hfit
    have hw : allocationLimit { w with pos := w.pos + 1 } = allocationLimit w := rfl
    have h3 : ¬ ((w.draws w.pos : Int) % 15 + 2 < 0
        ∨ (allocationLimit { w with pos := w.pos + 1 } : Int)
          < (w.draws w.pos : Int) % 15 + 2) := by
      rw [hw]
      omega
    obtain ⟨s, w', hs, hlen, hall⟩ :=
      fillCharset_ok ((w.draws w.pos : Int) % 15 + 2).toNat { w with pos := w.pos + 1 }
    refine ⟨s, w', ?_, fun c hc => ⟨hall c hc, charset_isAlphanum c (hall c hc)⟩,
      charset_length, by decide, fun h0 => absurd h (by omega), fun _ => by omega⟩
    simp only [randomString, if_pos h]
    rw [Intn_pos _ w hpos, hb]
    simp only [andThen_ok, hm, stringWithCharset, if_neg h3, hs]
  · rw [if_pos (by omega)] at hfit
    have h3 : ¬ (length < 0 ∨ (allocationLimit w : Int) < length) := by omega
    obtain ⟨s, w', hs, hlen, hall⟩ := fillCharset_ok length.toNat w
    refine ⟨s, w', ?_, fun c hc => ⟨hall c hc, charset_isAlphanum c (hall c hc)⟩,
      charset_length, by decide, fun _ => by omega, fun h0 => absurd h0 h⟩
    simp only [randomString, if_neg h, stringWithCharset, if_neg h3, hs]

/-- C18 (amended) at concrete inputs: the lengths 5 and 0 with all draws equal
to 3. -/
theorem randomString_charset_witness :
    (∃ (s : Str) (w' : World), randomString 5 (constWorld 3) = (.ok s, w')
        ∧ (s.length : Int) = 5)
    ∧ (∃ (s : Str) (w' : World), randomString 0 (constWorld 3) = (.ok s, w')
        ∧ 2 ≤ s.length ∧ s.length ≤ 16) := by
  obtain ⟨s, w', h, _, _, _, h5, _⟩ := randomString_charset 5 (constWorld 3) (by decide)
  obtain ⟨t, v', g, _, _, _, _, g0⟩ := randomString_charset 0 (constWorld 3) (by decide)
  exact ⟨⟨s, w', h, h5 (by decide)⟩, ⟨t, v', g, g0 (by decide)⟩⟩

/-- C18 (as stated, refuted at `length = 2^63 - 1`): `randomString` returns no
string, the allocation `make([]byte, length)` panics. -/
theorem randomString_huge_counterexample :
    (randomString (2 ^ 63 - 1) (constWorld 0)).1 = .panic "makeslice: len out of range".toList
    ∧ ¬ ∃ s : Str, (randomString (2 ^ 63 - 1) (constWorld 0)).1 = .ok s := by
  have h : (randomString (2 ^ 63 - 1) (constWorld 0)).1
      = .panic "makeslice: len out of range".toList := by decide
  refine ⟨h, ?_⟩
  rintro ⟨s, hs⟩
  rw [h] at hs
  cases hs

/-! ## The loop over the arguments -/

theorem expandsTo_length (args : List Str) :
    ∀ (w : World) (bs : List Bytes) (w' : World), expandsTo args w bs w' →
      bs.length = args.length := by
  induction args with
  | nil =>
    intro w bs w' h
    cases bs with
    | nil => rfl
    | cons b bs => exact absurd h (by simp [expandsTo])
  | cons arg args ih =>
    intro w bs w' h
    cases bs with
    | nil => exact absurd h (by simp [expandsTo])
    | cons b bs =>
      obtain ⟨w1, _, h2⟩ := h
      simp [ih w1 bs w' h2]

/-- Each byte string of a chain of expansions is the expansion of the
argument at the same position, in some state of the generator. -/
theorem expandsTo_get (args : List Str) :
    ∀ (w : World) (bs : List Bytes) (w' : World), expandsTo args w bs w' →
      ∀ (i : Nat) (a : Str) (b : Bytes), args.get? i = some a → bs.get? i = some b →
        ∃ wi wi' : World, expandArg a wi = (.ok b, wi') := by
  induction args with
  | nil => intro w bs w' _ i a b ha; simp at ha
  | cons arg args ih =>
    intro w bs w' h i a b ha hb
    cases bs with
    | nil => simp at hb
    | cons b0 bs =>
      obtain ⟨w1, h1, h2⟩ := h
      cases i with
      | zero =>
        simp only [List.get?, Option.some.injEq] at ha hb
        subst ha hb
        exact ⟨w, w1, h1⟩
      | succ i => exact ih w1 bs w' h2 i a b ha hb

/-- A run of the loop that returns a value has appended to `argsInByte` a
chain of expansions of the arguments. -/
theorem expandArgs_ok (args : List Str) :
    ∀ (acc : List Bytes) (w : World) (out : List Bytes) (w' : World),
      expandArgs acc args w = (.ok out, w') →
      ∃ bs, out = acc ++ bs ∧ expandsTo args w bs w' := by
  induction args with
  | nil =>
    intro acc w out w' h
    simp only [expandArgs, Prod.mk.injEq, Result.ok.injEq] at h
    exact ⟨[], by simp [h.1], h.2.symm⟩
  | cons arg args ih =>
    intro acc w out w' h
    rw [expandArgs] at h
    rcases hx : expandArg arg w with ⟨r, w1⟩
    rw [hx] at h
    cases r with
    | err e => simp at h
    | panic m => simp at h
    | ok b =>
      rw [andThen_ok] at h
      obtain ⟨bs, hout, hch⟩ := ih (acc ++ [b]) w1 out w' h
      exact ⟨b :: bs, by simp [hout], w1, hx, hch⟩

/-! ## CreateProposal: the encoded arguments -/

/-- C16: when `CreateProposal` returns a proposal for the arguments `args`,
the proposal is the one `protoutil.CreateChaincodeProposal` made for the
endorser transaction type, the channel, the serialized identity and a Go
chaincode spec with exactly the given name and version and with the input
arguments `bs`, where `bs` has as many entries as `args` and its entries are,
in order, the expansions of the arguments at the same positions (each in the
state of the generator left by the arguments before it). -/
theorem CreateProposal_arguments (lib : Lib) (signer : Crypto) (channel ccname version : Str)
    (args : List Str) (w w' : World) (p : Proposal)
    (h : CreateProposal lib signer channel ccname version args w = (.ok p, w')) :
    ∃ (bs : List Bytes) (creator : Bytes),
      bs.length = args.length
      ∧ expandsTo args w bs w'
      ∧ (∀ (i : Nat) (a : Str) (b : Bytes), args.get? i = some a → bs.get? i = some b →
          ∃ wi wi' : World, expandArg a wi = (.ok b, wi'))
      ∧ signer.Serialize = .ok creator
      ∧ lib.CreateChaincodeProposal .ENDORSER_TRANSACTION channel
          { ChaincodeSpec :=
              { Typ := .GOLANG
                ChaincodeId := { Name := ccname, Version := version }
                Input := { Args := bs } } }
          creator = .ok p := by
  unfold CreateProposal at h
  rcases hx : expandArgs [] args w with ⟨r, w1⟩
  rw [hx] at h
  cases r with
  | err e => simp at h
  | panic m => simp at h
  | ok out =>
    obtain ⟨bs, hout, hch⟩ := expandArgs_ok args [] w out w1 hx
    rw [List.nil_append] at hout
    subst hout
    rw [andThen_ok] at h
    unfold encodeProposal at h
    cases hs : signer.Serialize with
    | err e => simp [hs] at h
    | panic m => simp [hs] at h
    | ok creator =>
      simp only [hs, Prod.mk.injEq] at h
      obtain ⟨h1, h2⟩ := h
      subst h2
      exact ⟨out, creator, expandsTo_length args w out w1 hch, hch,
        expandsTo_get args w out w1 hch, rfl, h1⟩

/-- C16 at a concrete input: the arguments `invoke`, `randomString3`, `a`. -/
theorem CreateProposal_arguments_witness :
    ∃ (bs : List Bytes) (creator : Bytes),
      bs.length = ["invoke".toList, "randomString3".toList, "a".toList].length
      ∧ expandsTo ["invoke".toList, "randomString3".toList, "a".toList] (constWorld 1) bs
          { constWorld 1 with pos := 3 }
      ∧ (∀ (i : Nat) (a : Str) (b : Bytes),
          ["invoke".toList, "randomString3".toList, "a".toList].get? i = some a →
          bs.get? i = some b → ∃ wi wi' : World, expandArg a wi = (.ok b, wi'))
      ∧ demoSigner.Serialize = .ok creator
      ∧ demoLib.CreateChaincodeProposal .ENDORSER_TRANSACTION "ch".toList
          { ChaincodeSpec :=
              { Typ := .GOLANG
                ChaincodeId := { Name := "cc".toList, Version := "1".toList }
                Input := { Args := bs } } }
          creator
        = .ok { Header := [2, 99, 104, 3, 1, 2, 3]
                Payload := [2, 99, 99, 6, 105, 110, 118, 111, 107, 101, 3, 98, 98, 98, 1, 97] } :=
  CreateProposal_arguments demoLib demoSigner "ch".toList "cc".toList "1".toList
    ["invoke".toList, "randomString3".toList, "a".toList] (constWorld 1)
    { constWorld 1 with pos := 3 }
    { Header := [2, 99, 104, 3, 1, 2, 3]
      Payload := [2, 99, 99, 6, 105, 110, 118, 111, 107, 101, 3, 98, 98, 98, 1, 97] }
    rfl

/-! ## CreateSignedTx: absence of faults -/

theorem Result.bind_ne_panic {α β : Type} (x : Result α) (f : α → Result β)
    (hx : ∀ m, x ≠ .panic m) (hf : ∀ a m, f a ≠ .panic m) : ∀ m, x.bind f ≠ .panic m := by
  intro m
  cases x with
  | ok a => exact hf a m
  | err e => simp [Result.bind]
  | panic m0 => exact absurd rfl (hx m0)

theorem wrapErr_ne_panic {α : Type} (r : Result α) (msg : Str) (hr : ∀ m, r ≠ .panic m) :
    ∀ m, wrapErr r msg ≠ .panic m := by
  intro m
  cases r with
  | ok a => simp [wrapErr]
  | err e => simp [wrapErr]
  | panic m0 => exact absurd rfl (hr m0)

/-- After the first response, the loop on present responses returns a value
or an error, whatever their `Response` fields are. -/
theorem endorsementLoop_succ_ne_panic (n : Nat) (a1 : Bytes) (prs : List ProposalResponse)
    (es : List (Option Endorsement)) :
    ∀ m, endorsementLoop (n + 1) a1 es (prs.map some) ≠ .panic m := by
  intro m
  by_cases h : ∀ pr ∈ prs, pr.Payload = a1
  · rw [endorsementLoop_succ_ok n a1 prs es h]
    simp
  · have h2 : ∃ pr ∈ prs, pr.Payload ≠ a1 := by
      push_neg at h
      exact h
    rw [endorsementLoop_succ_mismatch n a1 prs es h2]
    simp

/-- The whole loop returns a value or an error when all responses are present
and the first one has its `Response` field. -/
theorem endorsementLoop_zero_ne_panic (pr0 : ProposalResponse) (resp0 : Response)
    (prs : List ProposalResponse) (hR : pr0.Response = some resp0) :
    ∀ m, endorsementLoop 0 [] [] ((pr0 :: prs).map some) ≠ .panic m := by
  intro m
  by_cases hs : resp0.Status < 200 ∨ resp0.Status ≥ 400
  · simp [endorsementLoop, hR, hs]
  · rw [List.map_cons, endorsementLoop_zero_cons pr0 resp0 _ hR (by omega) (by omega)]
    exact endorsementLoop_succ_ne_panic 0 pr0.Payload prs _ m

/-- C17: when the collaborators do not panic, for every non-nil proposal,
every signer and every non-empty list of present responses whose first one has
its `Response` field, `CreateSignedTx` returns an envelope or an error and
does not panic; the `Response` fields of the later responses may be nil. -/
theorem CreateSignedTx_no_fault (lib : Lib) (signer : Crypto)
    (hret : collaboratorsReturn lib signer) (proposal : Proposal)
    (pr0 : ProposalResponse) (resp0 : Response) (prs : List ProposalResponse)
    (hR : pr0.Response = some resp0) :
    (∃ env, CreateSignedTx lib (some proposal) signer ((pr0 :: prs).map some) = .ok env)
    ∨ (∃ e, CreateSignedTx lib (some proposal) signer ((pr0 :: prs).map some) = .err e) := by
  obtain ⟨h1, h2, h3, h4, h5, h6, h7, h8, h9, h10, h11⟩ := hret
  have hnp : ∀ m, CreateSignedTx lib (some proposal) signer ((pr0 :: prs).map some)
      ≠ .panic m := by
    have h0 : ¬ ((pr0 :: prs).map some).length = 0 := by simp
    unfold CreateSignedTx
    rw [if_neg h0]
    simp only
    apply Result.bind_ne_panic _ _ (wrapErr_ne_panic _ _ (h1 _))
    intro hdr
    apply Result.bind_ne_panic _ _ (wrapErr_ne_panic _ _ (h2 _))
    intro pPayl
    apply Result.bind_ne_panic _ _ h10
    intro signerBytes
    apply Result.bind_ne_panic _ _ (wrapErr_ne_panic _ _ (h3 _))
    intro shdr m
    split
    · simp
    · revert m
      apply Result.bind_ne_panic
      · exact Result.bind_ne_panic _ _ (wrapErr_ne_panic _ _ (h4 _))
          (fun chdr => wrapErr_ne_panic _ _ (h5 _))
      intro _
      apply Result.bind_ne_panic _ _ (endorsementLoop_zero_ne_panic pr0 resp0 prs hR)
      intro x
      apply Result.bind_ne_panic _ _ (h6 _)
      intro propPayloadBytes
      apply Result.bind_ne_panic _ _ (h7 _)
      intro capBytes
      apply Result.bind_ne_panic _ _ (h8 _)
      intro txBytes
      apply Result.bind_ne_panic _ _ (h9 _)
      intro paylBytes
      apply Result.bind_ne_panic _ _ (h11 _)
      intro sig m
      simp
  cases h : CreateSignedTx lib (some proposal) signer ((pr0 :: prs).map some) with
  | ok env => exact Or.inl ⟨env, rfl⟩
  | err e => exact Or.inr ⟨e, rfl⟩
  | panic m => exact absurd h (hnp m)

theorem unframe_ne_panic (b : Bytes) : ∀ m, unframe b ≠ .panic m := by
  intro m
  cases b with
  | nil => simp [unframe]
  | cons n rest =>
    by_cases h : rest.length < n.toNat
    · simp [unframe, h]
    · simp [unframe, h]

/-- The collaborators of the demonstration instance do not panic. -/
theorem demo_collaboratorsReturn : collaboratorsReturn demoLib demoSigner := by
  refine ⟨?_, ?_, ?_, ?_, ?_, ?_, ?_, ?_, ?_, ?_, ?_⟩
  · intro b
    exact Result.bind_ne_panic _ _ (unframe_ne_panic b) (fun a m => by simp)
  · intro b m; simp [demoLib]
  · intro b
    exact Result.bind_ne_panic _ _ (unframe_ne_panic b) (fun a m => by simp)
  · intro b m; simp [demoLib]
  · intro b m; simp [demoLib]
  · intro b m; simp [demoLib]
  · intro b m; simp [demoLib]
  · intro b m; simp [demoLib]
  · intro b m; simp [demoLib]
  · intro m; simp [demoSigner]
  · intro b m; simp [demoSigner]

/-- C17 at a concrete input: two responses, the second one without its
`Response` field. -/
theorem CreateSignedTx_no_fault_witness :
    (∃ env, CreateSignedTx demoLib (some demoProposal) demoSigner
        ([demoResponse 200 [5] 1, { demoResponse 0 [5] 2 with Response := none }].map some)
        = .ok env)
    ∨ (∃ e, CreateSignedTx demoLib (some demoProposal) demoSigner
        ([demoResponse 200 [5] 1, { demoResponse 0 [5] 2 with Response := none }].map some)
        = .err e) :=
  CreateSignedTx_no_fault demoLib demoSigner demo_collaboratorsReturn demoProposal
    (demoResponse 200 [5] 1) { Status := 200, Message := [] }
    [{ demoResponse 0 [5] 2 with Response := none }] rfl

/-! ## Errors and panics of the expansion -/

/-- The call `Atoi` returns a value or the error for its input. -/
theorem Atoi_cases (s : Str) : Atoi s = .err (.atoi s) ∨ ∃ v, Atoi s = .ok v := by
  unfold Atoi
  simp only
  split_ifs <;> first | exact Or.inl rfl | exact Or.inr ⟨_, rfl⟩

theorem randomInt_cases (min max : Int) (w : World) :
    (∃ v w', randomInt min max w = (.ok v, w'))
    ∨ (∃ m w', randomInt min max w = (.panic m, w')) := by
  unfold randomInt
  simp only
  by_cases h : (if max ≤ 0 then 1 else max) - (if min < 0 then 0 else min) ≤ 0
  · rw [Intn_nonpos _ w h]; exact Or.inr ⟨_, _, rfl⟩
  · rw [Intn_pos _ w (by omega)]; exact Or.inl ⟨_, _, rfl⟩

theorem stringWithCharset_cases (length : Int) (w : World) :
    (∃ (s : Str) (w' : World), stringWithCharset length charset w = (.ok s, w'))
    ∨ (∃ (m : Str) (w' : World), stringWithCharset length charset w = (.panic m, w')) := by
  unfold stringWithCharset
  by_cases h : length < 0 ∨ (allocationLimit w : Int) < length
  · rw [if_pos h]
    exact Or.inr ⟨_, _, rfl⟩
  · rw [if_neg h]
    obtain ⟨s, w', hs, _, _⟩ := fillCharset_ok length.toNat w
    exact Or.inl ⟨s, w', hs⟩

/-- The call `randomString` returns a string or panics, it returns no error. -/
theorem randomString_cases (length : Int) (w : World) :
    (∃ (s : Str) (w' : World), randomString length w = (.ok s, w'))
    ∨ (∃ (m : Str) (w' : World), randomString length w = (.panic m, w')) := by
  unfold randomString
  by_cases h : length ≤ 0
  · have hpos : (0 : Int) < maxLen - minLen + 1 := by decide
    rw [if_pos h, Intn_pos _ w hpos, andThen_ok]
    exact stringWithCharset_cases _ _
  · rw [if_neg h]
    exact stringWithCharset_cases _ _

/-- Every error returned by the expansion of an argument is an error of `strconv.Atoi`. -/
theorem expandArg_err_atoi (arg : Str) (w w' : World) (e : Err)
    (h : expandArg arg w = (.err e, w')) : ∃ s, e = .atoi s := by
  unfold expandArg at h
  simp only at h
  generalize (if arg = "uuid".toList then
      match newUUID w with
      | (u, w) => (toBytes u, w)
    else (toBytes arg, w)) = au at h
  generalize hF : (fun (current_arg : Bytes) (w : World) =>
      if regNumberMatch arg = true then
        match (Split (TrimPrefix arg "randomNumber".toList) '_').get? 0 with
        | none => (Result.panic indexOutOfRange, w)
        | some a0 =>
          match Atoi a0 with
          | Result.err e => (Result.err e, w)
          | Result.panic m => (Result.panic m, w)
          | Result.ok min =>
            match (Split (TrimPrefix arg "randomNumber".toList) '_').get? 1 with
            | none => (Result.panic indexOutOfRange, w)
            | some a1 =>
              match Atoi a1 with
              | Result.err e => (Result.err e, w)
              | Result.panic m => (Result.panic m, w)
              | Result.ok max =>
                andThen (randomInt min max w) fun v w => (Result.ok (toBytes (Itoa v)), w)
      else (Result.ok current_arg, w)) = F at h
  have stage2 : ∀ (cur : Bytes) (w2 : World), F cur w2 = (.err e, w') → ∃ s, e = .atoi s := by
    intro cur w2 h2
    rw [← hF] at h2
    simp only at h2
    by_cases hn : regNumberMatch arg = true
    · rw [if_pos hn] at h2
      cases h0 : (Split (TrimPrefix arg "randomNumber".toList) '_').get? 0 with
      | none => rw [h0] at h2; simp at h2
      | some a0 =>
        simp only [h0] at h2
        rcases Atoi_cases a0 with ha | ⟨v0, ha⟩
        · simp only [ha, Prod.mk.injEq, Result.err.injEq] at h2
          exact ⟨a0, h2.1.symm⟩
        · simp only [ha] at h2
          cases h1 : (Split (TrimPrefix arg "randomNumber".toList) '_').get? 1 with
          | none => rw [h1] at h2; simp at h2
          | some a1 =>
            simp only [h1] at h2
            rcases Atoi_cases a1 with hb | ⟨v1, hb⟩
            · simp only [hb, Prod.mk.injEq, Result.err.injEq] at h2
              exact ⟨a1, h2.1.symm⟩
            · simp only [hb] at h2
              rcases randomInt_cases v0 v1 w2 with ⟨v, w3, hr⟩ | ⟨m, w3, hr⟩
              · simp [hr] at h2
              · simp [hr] at h2
    · rw [if_neg hn] at h2
      simp at h2
  by_cases hs : regStringMatch arg = true
  · rw [if_pos hs] at h
    rcases Atoi_cases (TrimPrefix arg "randomString".toList) with ha | ⟨v, ha⟩
    · simp only [ha, andThen_err, Prod.mk.injEq, Result.err.injEq] at h
      exact ⟨_, h.1.symm⟩
    · rcases randomString_cases v au.2 with ⟨s, w1, hr⟩ | ⟨m, w1, hr⟩
      · simp only [ha, hr, andThen_ok] at h
        exact stage2 _ _ h
      · simp only [ha, hr, andThen_panic, Prod.mk.injEq, reduceCtorEq, false_and] at h
  · rw [if_neg hs] at h
    simp only [andThen_ok] at h
    exact stage2 _ _ h

/-- Every error returned by the loop over the arguments is an error of `strconv.Atoi`. -/
theorem expandArgs_err_atoi (args : List Str) :
    ∀ (acc : List Bytes) (w w' : World) (e : Err),
      expandArgs acc args w = (.err e, w') → ∃ s, e = .atoi s := by
  induction args with
  | nil => intro acc w w' e h; simp [expandArgs] at h
  | cons arg args ih =>
    intro acc w w' e h
    rw [expandArgs] at h
    rcases hx : expandArg arg w with ⟨r, w1⟩
    rw [hx] at h
    cases r with
    | ok b => exact ih _ _ _ _ h
    | err e0 =>
      simp only [andThen_err, Prod.mk.injEq, Result.err.injEq] at h
      obtain ⟨s, hs⟩ := expandArg_err_atoi arg w w1 e0 hx
      exact ⟨s, by rw [← h.1, hs]⟩
    | panic m => simp at h

theorem expandArgs_append (pre rest : List Str) :
    ∀ (acc : List Bytes) (w : World),
      expandArgs acc (pre ++ rest) w
        = andThen (expandArgs acc pre w) fun bs w => expandArgs bs rest w := by
  induction pre with
  | nil => intro acc w; simp [expandArgs]
  | cons arg pre ih =>
    intro acc w
    rw [List.cons_append, expandArgs, expandArgs]
    rcases hx : expandArg arg w with ⟨r, w1⟩
    cases r with
    | ok b => simp only [andThen_ok, ih]
    | err e => simp
    | panic m => simp

theorem Atoi_head_letter (c : Char) (cs : Str) (hc : c.isDigit = false) (h1 : c ≠ '-')
    (h2 : c ≠ '+') : Atoi (c :: cs) = .err (.atoi (c :: cs)) := by
  have hh : ¬ ((c :: cs).head? = some '-' ∨ (c :: cs).head? = some '+') := by simp [h1, h2]
  unfold Atoi
  simp only [if_neg hh, List.all_cons, hc, Bool.false_and, Bool.false_eq_true, not_false_eq_true,
    or_true, if_true]

/-- Expansion of `randomNumber`, a run of digits `MIN`, an underscore and a
string `MAX` without underscore, when one of the two is not parsed by `Atoi`:
an error of `Atoi`, without a draw. -/
theorem expandArg_randomNumber_unparsable (MIN MAX : Str) (w : World)
    (hd : ∀ c ∈ MIN, c.isDigit = true) (hu : '_' ∉ MAX)
    (hbad : (∀ v, Atoi MIN ≠ .ok v) ∨ (∀ v, Atoi MAX ≠ .ok v)) :
    ∃ s, expandArg ("randomNumber".toList ++ (MIN ++ '_' :: MAX)) w = (.err (.atoi s), w) := by
  have hne : ¬ ("randomNumber".toList ++ (MIN ++ '_' :: MAX) = "uuid".toList) := by
    intro h
    have h1 : ('r' :: ("andomNumber".toList ++ (MIN ++ '_' :: MAX))) = 'u' :: "uid".toList := h
    injection h1 with h2 _
    exact absurd h2 (by decide)
  by_cases hs : regStringMatch ("randomNumber".toList ++ (MIN ++ '_' :: MAX)) = true
  · have ht : TrimPrefix ("randomNumber".toList ++ (MIN ++ '_' :: MAX)) "randomString".toList
        = "randomNumber".toList ++ (MIN ++ '_' :: MAX) := rfl
    have ha : Atoi ("randomNumber".toList ++ (MIN ++ '_' :: MAX))
        = .err (.atoi ("randomNumber".toList ++ (MIN ++ '_' :: MAX))) :=
      Atoi_head_letter 'r' ("andomNumber".toList ++ (MIN ++ '_' :: MAX)) (by decide)
        (by decide) (by decide)
    refine ⟨"randomNumber".toList ++ (MIN ++ '_' :: MAX), ?_⟩
    simp only [expandArg, if_neg hne, hs, if_true, ht, ha, andThen_err]
  · have hsplit : Split (MIN ++ '_' :: MAX) '_' = [MIN, MAX] := by
      rw [Split_append_sep MIN MAX '_' (digits_no_underscore MIN hd), Split_no_sep MAX '_' hu]
    rcases Atoi_cases MIN with ha | ⟨v0, ha⟩
    · refine ⟨MIN, ?_⟩
      simp only [expandArg, if_neg hne, hs, Bool.false_eq_true, if_false, andThen_ok,
        regNumberMatch_at_start MIN MAX hd, if_true, TrimPrefix_append, hsplit, List.get?, ha]
    · have hb : Atoi MAX = .err (.atoi MAX) := by
        rcases Atoi_cases MAX with hb | ⟨v1, hb⟩
        · exact hb
        · rcases hbad with h | h
          · exact absurd ha (h v0)
          · exact absurd hb (h v1)
      refine ⟨MAX, ?_⟩
      simp only [expandArg, if_neg hne, hs, Bool.false_eq_true, if_false, andThen_ok,
        regNumberMatch_at_start MIN MAX hd, if_true, TrimPrefix_append, hsplit, List.get?, ha, hb]

/-! ## CreateProposal: unparsable bounds -/

/-- When the calls of `infra.CreateProposal` at the states visited by `k`
iterations return and the channel has room for each send, the `k` iterations
run to their end and append `k` units to the units sent so far, the unit of
iteration `i` holding the pointer returned by the call of that iteration. -/
theorem generationLoop_done {σ : Type}
    (create : Crypto → Str → Str → Str → List Str → σ → Option (Option Proposal × σ))
    (received : Nat → Nat) (crypto : Crypto) (config : Config) (k : Nat) :
    ∀ (s : σ) (sent : List Elements),
      (∀ i, i < k → (create crypto config.Channel config.Chaincode config.Version config.Args
        (stateBefore create crypto config i s)).isSome = true) →
      (∀ i, i < k → sent.length + i < received (sent.length + i) + rawCapacity) →
      ∃ units : List Elements,
        generationLoop create received crypto config k s sent
          = .done (sent ++ units) (stateBefore create crypto config k s)
        ∧ units.length = k
        ∧ ∀ i, i < k → ∃ (prop : Option Proposal) (s1 : σ),
            create crypto config.Channel config.Chaincode config.Version config.Args
              (stateBefore create crypto config i s) = some (prop, s1)
            ∧ units.get? i = some { Proposal := prop } := by
  induction k with
  | zero =>
    intro s sent _ _
    exact ⟨[], by simp [generationLoop, stateBefore], rfl, fun i hi => absurd hi (by omega)⟩
  | succ k ih =>
    intro s sent hret hroom
    have h0 := hret 0 (by omega)
    rw [stateBefore] at h0
    cases hc : create crypto config.Channel config.Chaincode config.Version config.Args s with
    | none => rw [hc] at h0; exact absurd h0 (by simp)
    | some r =>
      obtain ⟨prop, s1⟩ := r
      have hstep : ∀ i, stateBefore create crypto config (i + 1) s
          = stateBefore create crypto config i s1 := fun i => by rw [stateBefore, hc]
      have hr0 : sent.length < received sent.length + rawCapacity := by
        simpa using hroom 0 (by omega)
      obtain ⟨units, hloop, hlen, hall⟩ := ih s1 (sent ++ [{ Proposal := prop }])
        (fun i hi => by rw [← hstep i]; exact hret (i + 1) (by omega))
        (fun i hi => by
          have := hroom (i + 1) (by omega)
          simp only [List.length_append, List.length_singleton]
          rw [show sent.length + 1 + i = sent.length + (i + 1) by omega]
          exact this)
      refine ⟨{ Proposal := prop } :: units, ?_, by simp [hlen], ?_⟩
      · rw [generationLoop, hc]
        simp only [if_pos hr0, hloop, hstep, List.append_assoc, List.singleton_append]
      · intro i hi
        cases i with
        | zero => exact ⟨prop, s1, by rw [stateBefore]; exact hc, rfl⟩
        | succ i =>
          obtain ⟨p, s2, h1, h2⟩ := hall i (by omega)
          exact ⟨p, s2, by rw [hstep i]; exact h1, h2⟩

end Stupid
